import Mathlib

/-!
# mailio/go-mailio-did: identifiers, key material, documents, credentials

A shallow embedding of the Go package `did` (files `types.go`, `key.go`,
`document.go`, `verifiable_credential.go`) together with theorems about it.

Conventions of the embedding

* A Go `string` and a Go `[]byte` are both finite byte sequences: `List UInt8`.
  String literals of the program are written `lit "..."` (all of them are ASCII).
* A Go function returning `(T, error)` returns a pair `T × Option Error`; the
  second component is `none` for a `nil` error.
* A Go function that can panic at run time (nil dereference, slice out of range,
  a panic of `jws.Verify` on a public key of the wrong size) returns an `Option`,
  with `none` standing for the panic.
* Library functions the program calls (`strings`, `encoding/hex`,
  `encoding/base64`, `crypto/sha256`, `base58`) are given executable models of
  their documented behaviour; the key-object codec, the signature scheme and the
  binary codec are taken as parameters (capabilities), as is the clock.
  `cborMarshalModel` is a field-by-field model of the binary encoder, for the
  one statement that needs to know which fields are encoded.
-/

namespace Did

/-! ## Strings -/

/-- A Go string: an immutable sequence of bytes. -/
abbrev GoString := List UInt8

/-- A Go byte slice. -/
abbrev Bytes := List UInt8

/-- An ASCII string literal of the program as a byte sequence. -/
def lit (s : String) : GoString := s.toList.map (fun c => UInt8.ofNat c.toNat)

/-- The function `strings.HasPrefix`. -/
def HasPrefix (s pre : GoString) : Bool := pre.isPrefixOf s

/-- The function `strings.Index` for a one-byte separator: the position of the
first occurrence of `c` in `s`, `none` standing for `-1`. -/
def IndexByte : GoString → UInt8 → Option Nat
  | [], _ => none
  | b :: rest, c => if b = c then some 0 else (IndexByte rest c).map (· + 1)

/-- The function `strings.Count` for a one-byte separator. -/
def Count (s : GoString) (c : UInt8) : Nat := s.count c

/-- The loop of `strings.genSplit` (with `sepSave = 0` and a one-byte separator):
`k` is the number of iterations still allowed (`n - 1 - i`); the loop cuts at the
first separator, and stops at `k = 0` or when no separator is left, storing the
remainder as the last piece. -/
def splitLoop (s : GoString) (sep : UInt8) : Nat → List GoString
  | 0 => [s]
  | k + 1 =>
    match IndexByte s sep with
    | none => [s]
    | some m => s.take m :: splitLoop (s.drop (m + 1)) sep k

/-- The function `strings.SplitN(s, sep, n)` for a one-byte separator `sep` and
`n ≥ 0`: `n = 0` gives the nil slice; otherwise `n` is capped at `len(s) + 1` and
at most `n - 1` cuts are made. -/
def SplitN (s : GoString) (sep : UInt8) (n : Nat) : List GoString :=
  if n = 0 then []
  else
    let n := if n > s.length + 1 then s.length + 1 else n
    splitLoop s sep (n - 1)

/-- The loop of `strings.Replace` for a one-byte `old`: `k` replacements left. -/
def replaceLoop (s : GoString) (old : UInt8) (new : GoString) : Nat → GoString
  | 0 => s
  | k + 1 =>
    match IndexByte s old with
    | none => s
    | some j => s.take j ++ new ++ replaceLoop (s.drop (j + 1)) old new k

/-- The function `strings.Replace(s, old, new, n)` for a one-byte `old` and
`n ≥ 0`: the first `n` occurrences of `old` are replaced by `new`. -/
def Replace (s : GoString) (old : UInt8) (new : GoString) (n : Nat) : GoString :=
  if [old] = new ∨ n = 0 then s
  else
    let m := Count s old
    if m = 0 then s
    else replaceLoop s old new (if m < n then m else n)

/-! ## Errors -/

/-- The errors of the package, one constructor per `fmt.Errorf`/`errors.New`
site, and `external` for an error handed up from a library. -/
inductive Error where
  | invalidDidThreeParts (segm : List GoString)
  | invalidDidFirstSegment
  | masterKeyRequired
  | noKeyFoundInJwk
  | onlyEd25519Supported
  | unsupportedKeyType (keyType : GoString)
  | noPublicKeyInVerificationMethod
  | noKeyFoundByThatID
  | noPublicKeyInKeyAgreement
  | proofIsNil
  | jwsIsEmpty
  | issuerIsNotMatch
  | external (code : Nat)
  deriving DecidableEq, Repr

/-! ## Identifiers (`types.go`) -/

/-- The struct `DID`. -/
structure DID where
  raw : GoString
  proto : GoString
  value : GoString
  fragment : GoString
  deriving DecidableEq, Repr

/-- The zero value `DID{}`. -/
def DID.zero : DID := { raw := [], proto := [], value := [], fragment := [] }

/-- The method `String`. -/
def DID.String (d : DID) : GoString := d.raw

/-- The method `Value`. -/
def DID.Value (d : DID) : GoString := d.value

/-- The method `Fragment`. -/
def DID.Fragment (d : DID) : GoString := d.fragment

/-- The method `Protocol`. -/
def DID.Protocol (d : DID) : GoString := d.proto

/-- The function `ParseDID`. The index expressions `dfrag[0]`, `dfrag[1]`,
`segm[0..2]` are always in range (`SplitN` with `n ≥ 1` returns at least one
piece, and the other indices are guarded by the length tests). -/
def ParseDID (s : GoString) : DID × Option Error :=
  if HasPrefix s (lit "#") then
    ({ raw := s, proto := [], value := [], fragment := s }, none)
  else
    let dfrag := SplitN s 35 2
    let segm := SplitN (dfrag.getD 0 []) 58 3
    if segm.length ≠ 3 then
      (DID.zero, some (Error.invalidDidThreeParts segm))
    else if segm.getD 0 [] ≠ lit "did" then
      (DID.zero, some Error.invalidDidFirstSegment)
    else
      let frag : GoString :=
        if dfrag.length = 2 then
          Replace (lit "#" ++ dfrag.getD 1 []) 35 (lit "") 1
        else []
      ({ raw := s, proto := segm.getD 1 [], value := segm.getD 2 [], fragment := frag }, none)

/-- The part of `s` before its first `#` (all of `s` when it has none), in the
words of the specification. -/
def beforeFragment (s : GoString) : GoString := s.takeWhile (fun b => b != 35)

/-- The `sep`-delimited segments of a string, in the words of the specification:
every occurrence of `sep` ends one segment and starts the next. -/
def segments (sep : UInt8) : GoString → List GoString
  | [] => [[]]
  | b :: rest =>
    if b = sep then [] :: segments sep rest
    else
      match segments sep rest with
      | [] => [[b]]
      | h :: t => (b :: h) :: t

/-! ## Library models: `encoding/hex`, `encoding/base64`, `crypto/sha256` -/

/-- The table `hextable` of `encoding/hex`. -/
def hextable : GoString := lit "0123456789abcdef"

/-- The function `hex.EncodeToString`: two table characters per byte, the high
nibble `v >> 4` first and the low nibble `v & 0x0f` second. -/
def hexEncodeToString : Bytes → GoString
  | [] => []
  | v :: rest =>
    hextable.getD (v.toNat / 16) 0 :: hextable.getD (v.toNat % 16) 0 :: hexEncodeToString rest

/-- The alphabet `encodeStd` of `encoding/base64`. -/
def encodeStd : GoString :=
  lit "ABCDEFGHIJKLMNOPQRSTUVWXYZabcdefghijklmnopqrstuvwxyz0123456789+/"

/-- The character of a 6-bit value in the standard alphabet. -/
def b64Char (n : Nat) : UInt8 := encodeStd.getD (n % 64) 0

/-- The function `base64.StdEncoding.EncodeToString`: three bytes give four
characters; a remainder of one or two bytes is padded with `=`. -/
def base64EncodeToString : Bytes → GoString
  | a :: b :: c :: rest =>
    let val := a.toNat * 65536 + b.toNat * 256 + c.toNat
    b64Char (val / 262144) :: b64Char (val / 4096) :: b64Char (val / 64) :: b64Char val ::
      base64EncodeToString rest
  | [a, b] =>
    let val := a.toNat * 65536 + b.toNat * 256
    [b64Char (val / 262144), b64Char (val / 4096), b64Char (val / 64), 61]
  | [a] =>
    let val := a.toNat * 65536
    [b64Char (val / 262144), b64Char (val / 4096), 61, 61]
  | [] => []

namespace Sha256

/-- Reduction to a 32-bit word. -/
def w32 (x : Nat) : Nat := x % 4294967296

/-- Rotation of a 32-bit word to the right by `n` bits. -/
def rotr (n x : Nat) : Nat := w32 ((x >>> n) ||| (x <<< (32 - n)))

def ch (x y z : Nat) : Nat := (x &&& y) ^^^ ((4294967295 - x) &&& z)

def maj (x y z : Nat) : Nat := (x &&& y) ^^^ (x &&& z) ^^^ (y &&& z)

def bsig0 (x : Nat) : Nat := rotr 2 x ^^^ rotr 13 x ^^^ rotr 22 x

def bsig1 (x : Nat) : Nat := rotr 6 x ^^^ rotr 11 x ^^^ rotr 25 x

def ssig0 (x : Nat) : Nat := rotr 7 x ^^^ rotr 18 x ^^^ (x >>> 3)

def ssig1 (x : Nat) : Nat := rotr 17 x ^^^ rotr 19 x ^^^ (x >>> 10)

/-- The round constants. -/
def K : List Nat :=
  [0x428a2f98, 0x71374491, 0xb5c0fbcf, 0xe9b5dba5, 0x3956c25b, 0x59f111f1, 0x923f82a4, 0xab1c5ed5,
   0xd807aa98, 0x12835b01, 0x243185be, 0x550c7dc3, 0x72be5d74, 0x80deb1fe, 0x9bdc06a7, 0xc19bf174,
   0xe49b69c1, 0xefbe4786, 0x0fc19dc6, 0x240ca1cc, 0x2de92c6f, 0x4a7484aa, 0x5cb0a9dc, 0x76f988da,
   0x983e5152, 0xa831c66d, 0xb00327c8, 0xbf597fc7, 0xc6e00bf3, 0xd5a79147, 0x06ca6351, 0x14292967,
   0x27b70a85, 0x2e1b2138, 0x4d2c6dfc, 0x53380d13, 0x650a7354, 0x766a0abb, 0x81c2c92e, 0x92722c85,
   0xa2bfe8a1, 0xa81a664b, 0xc24b8b70, 0xc76c51a3, 0xd192e819, 0xd6990624, 0xf40e3585, 0x106aa070,
   0x19a4c116, 0x1e376c08, 0x2748774c, 0x34b0bcb5, 0x391c0cb3, 0x4ed8aa4a, 0x5b9cca4f, 0x682e6ff3,
   0x748f82ee, 0x78a5636f, 0x84c87814, 0x8cc70208, 0x90befffa, 0xa4506ceb, 0xbef9a3f7, 0xc67178f2]

/-- The eight working words. -/
structure State where
  a : Nat
  b : Nat
  c : Nat
  d : Nat
  e : Nat
  f : Nat
  g : Nat
  h : Nat
  deriving DecidableEq, Repr

/-- The initial hash value. -/
def init : State :=
  { a := 0x6a09e667, b := 0xbb67ae85, c := 0x3c6ef372, d := 0xa54ff53a,
    e := 0x510e527f, f := 0x9b05688c, g := 0x1f83d9ab, h := 0x5be0cd19 }

/-- The padded message: the byte `0x80`, zero bytes up to 56 modulo 64, and the
bit length as eight big-endian bytes. -/
def pad (msg : Bytes) : List Nat :=
  let len := msg.length
  let bits := (len * 8) % 18446744073709551616
  msg.map UInt8.toNat ++ [128] ++ List.replicate ((119 - len % 64) % 64) 0 ++
    [bits / 72057594037927936 % 256, bits / 281474976710656 % 256, bits / 1099511627776 % 256,
     bits / 4294967296 % 256, bits / 16777216 % 256, bits / 65536 % 256, bits / 256 % 256,
     bits % 256]

/-- Big-endian words of a byte sequence, four bytes each. -/
def toWords : Nat → List Nat → List Nat
  | 0, _ => []
  | n + 1, bs =>
    match bs with
    | b0 :: b1 :: b2 :: b3 :: rest =>
      (b0 * 16777216 + b1 * 65536 + b2 * 256 + b3) :: toWords n rest
    | _ => []

/-- The message schedule: `n` more words appended to the words so far. -/
def schedule : Nat → List Nat → List Nat
  | 0, w => w
  | n + 1, w =>
    let t := w.length
    schedule n (w ++ [w32 (ssig1 (w.getD (t - 2) 0) + w.getD (t - 7) 0 + ssig0 (w.getD (t - 15) 0)
      + w.getD (t - 16) 0)])

/-- One round of the compression function with constant `k` and schedule word `w`. -/
def round (s : State) (kw : Nat × Nat) : State :=
  let t1 := w32 (s.h + bsig1 s.e + ch s.e s.f s.g + kw.1 + kw.2)
  let t2 := w32 (bsig0 s.a + maj s.a s.b s.c)
  { a := w32 (t1 + t2), b := s.a, c := s.b, d := s.c, e := w32 (s.d + t1), f := s.e, g := s.f,
    h := s.g }

/-- The compression of one 64-byte block into the hash value. -/
def compress (hv : State) (block : List Nat) : State :=
  let w := schedule 48 (toWords 16 block)
  let s := (K.zip w).foldl round hv
  { a := w32 (hv.a + s.a), b := w32 (hv.b + s.b), c := w32 (hv.c + s.c), d := w32 (hv.d + s.d),
    e := w32 (hv.e + s.e), f := w32 (hv.f + s.f), g := w32 (hv.g + s.g), h := w32 (hv.h + s.h) }

/-- The hash value after at most `n` blocks of 64 bytes. -/
def blocks : Nat → State → List Nat → State
  | 0, hv, _ => hv
  | n + 1, hv, bs =>
    match bs with
    | [] => hv
    | _ :: _ => blocks n (compress hv (bs.take 64)) (bs.drop 64)

/-- The four big-endian bytes of a 32-bit word. -/
def wordBytes (x : Nat) : Bytes :=
  [UInt8.ofNat (x / 16777216), UInt8.ofNat (x / 65536), UInt8.ofNat (x / 256), UInt8.ofNat x]

/-- The 32-byte digest of a hash value. -/
def digest (s : State) : Bytes :=
  wordBytes s.a ++ wordBytes s.b ++ wordBytes s.c ++ wordBytes s.d ++ wordBytes s.e ++
    wordBytes s.f ++ wordBytes s.g ++ wordBytes s.h

/-- The hash `sha256.New()`, `Write(msg)`, `Sum(nil)`. -/
def sum (msg : Bytes) : Bytes :=
  let p := pad msg
  digest (blocks p.length init p)

end Sha256

/-- The slice expression `s[lo:hi]` of a string; `none` is the run-time panic
for bounds out of range. -/
def sliceStr (s : GoString) (lo hi : Nat) : Option GoString :=
  if lo ≤ hi ∧ hi ≤ s.length then some ((s.take hi).drop lo) else none

/-! ## Key material (`key.go`) -/

def KeyTypeEd25519 : GoString := lit "Ed25519VerificationKey2020"

def PublicKeyJwkType : GoString := lit "JsonWebKey2020"

def KeyTypeX25519KeyAgreement : GoString := lit "X25519KeyAgreementKey2019"

def DIDKeyPrefix : GoString := lit "did:mailio:"

/-- The struct `Key` (its field `Type` is `Typ` here). -/
structure Key where
  PublicKey : Bytes
  Typ : GoString
  deriving DecidableEq, Repr

/-- The struct `MailioKey`; a `nil` pointer is `none`. -/
structure MailioKey where
  MasterSignKey : Option Key
  MasterAgreementKey : Option Key
  VerificationKeys : List (Option Key)
  AuthenticationKeys : List (Option Key)
  deriving DecidableEq, Repr

/-- The method `MailioAddress`. It panics when the master signing key is `nil`
(the dereference `k.MasterSignKey.PublicKey`) and when the slice `[64-40:64]` of
the hex digest is out of range. -/
def MailioKey.MailioAddress (k : MailioKey) : Option GoString :=
  match k.MasterSignKey with
  | none => none
  | some msk =>
    let pubKey := msk.PublicKey
    let b64Encoded := base64EncodeToString pubKey
    let sha256Key := hexEncodeToString (Sha256.sum b64Encoded)
    match sliceStr sha256Key (64 - 40) 64 with
    | none => none
    | some t => some (lit "0x" ++ t)

/-- The method `DIDFromKey`. -/
def MailioKey.DIDFromKey (k : MailioKey) : Option (DID × Option Error) :=
  match k.MasterSignKey with
  | none => some (DID.zero, some Error.masterKeyRequired)
  | some _ =>
    match k.MailioAddress with
    | none => none
    | some addr =>
      let didStr := DIDKeyPrefix ++ addr
      match ParseDID didStr with
      | (_, some err) => some (DID.zero, some err)
      | (id, none) => some (id, none)

/-- The hex digest the address is cut from. -/
def hexDigest (key : Key) : GoString :=
  hexEncodeToString (Sha256.sum (base64EncodeToString key.PublicKey))

/-! ## Library models: `strconv`, `base58`, and the key-object codec -/

/-- The digits of `n` in base `b`, least significant first; `fuel` bounds the
number of digits (any `fuel ≥ n` is enough for `b ≥ 2`). -/
def toBase (b : Nat) : Nat → Nat → List Nat
  | 0, _ => []
  | fuel + 1, n => if n = 0 then [] else n % b :: toBase b fuel (n / b)

/-- The function `strconv.Itoa` on a non-negative integer: its decimal numeral. -/
def Itoa (n : Nat) : GoString :=
  if n = 0 then lit "0" else ((toBase 10 n n).reverse).map (fun d => UInt8.ofNat (48 + d))

/-- The Bitcoin alphabet `BTCAlphabet` of `base58`. -/
def b58Alphabet : GoString := lit "123456789ABCDEFGHJKLMNPQRSTUVWXYZabcdefghijkmnopqrstuvwxyz"

/-- The number a byte sequence denotes, most significant byte first. -/
def bytesToNat (bs : Bytes) : Nat := bs.foldl (fun acc b => acc * 256 + b.toNat) 0

/-- The function `base58.Encode`: one `1` per leading zero byte, then the base-58
digits of the number the bytes denote, most significant first. The empty byte
sequence encodes to the empty string. -/
def base58Encode (bin : Bytes) : GoString :=
  let zcount := (bin.takeWhile (fun b => b == 0)).length
  let n := bytesToNat bin
  List.replicate zcount 49 ++ ((toBase 58 n n).reverse).map (fun d => b58Alphabet.getD d 0)

/-- The value of a character in the Bitcoin alphabet, `none` for a character
outside it. -/
def b58Value (c : UInt8) : Option Nat :=
  match b58Alphabet.indexOf c with
  | i => if i < 58 then some i else none

/-- The values of all characters of a string, `none` when one is outside the
alphabet. -/
def b58Values : GoString → Option (List Nat)
  | [] => some []
  | c :: rest =>
    match b58Value c, b58Values rest with
    | some d, some ds => some (d :: ds)
    | _, _ => none

/-- The function `base58.Decode`: an error for the empty string and for a
character outside the alphabet; otherwise one zero byte per leading `1`, then
the bytes of the number the digits denote, most significant first. -/
def base58Decode (str : GoString) : Bytes × Option Error :=
  if str = [] then ([], some (Error.external 1))
  else
    match b58Values str with
    | none => ([], some (Error.external 2))
    | some ds =>
      let zcount := (str.takeWhile (fun c => c == 49)).length
      let n := ds.foldl (fun acc d => acc * 58 + d) 0
      (List.replicate zcount 0 ++ ((toBase 256 n n).reverse).map UInt8.ofNat, none)

/-- The dynamic type and value of the raw key a key object yields: an
`ed25519.PublicKey`, or a value of any other type. -/
inductive RawKey where
  | ed25519PublicKey (b : Bytes)
  | other (b : Bytes)
  deriving DecidableEq, Repr

/-- What the program observes of a `jwk.Key` (an interface value): the result of
its method `KeyType` and of its method `Raw`. -/
structure JwkKey where
  KeyType : GoString
  Raw : Option RawKey × Option Error
  deriving DecidableEq, Repr

/-- The constant `jwa.OKP`. -/
def jwaOKP : GoString := lit "OKP"

/-- The key-object encoder `jwk.FromRaw` as a capability: the key object (`none`
for a `nil` interface) and the error it returns for the bytes of a public key. -/
abbrev FromRawFn := Bytes → Option JwkKey × Option Error

/-- A key-object encoder that round-trips: the key object it builds is an
octet-key-pair key whose raw key is the `ed25519.PublicKey` it was built from. -/
def jwkFromRaw : FromRawFn := fun b =>
  (some { KeyType := jwaOKP, Raw := (some (RawKey.ed25519PublicKey b), none) }, none)

/-! ## Documents (`types.go`, `document.go`) -/

def CtxDIDv1 : GoString := lit "https://www.w3.org/ns/did/v1"

def CtxSecEd25519_2020v1 : GoString := lit "https://w3id.org/security/suites/ed25519-2020/v1"

def CtxSecX25519_2019v1 : GoString := lit "https://w3id.org/security/suites/x25519-2019/v1"

def AuthenticationDIDType : GoString := lit "MailioDIDAuth"

def MessagingDIDType : GoString := lit "DIDCommMessaging"

/-- The struct `PublicKeyJwk`; its field `Key` is an interface, `none` when `nil`. -/
structure PublicKeyJwk where
  Key : Option JwkKey
  deriving DecidableEq, Repr

/-- The struct `VerificationMethod` (its field `Type` is `Typ` here). -/
structure VerificationMethod where
  ID : GoString
  Typ : GoString
  Controller : GoString
  PublicKeyJwk : Option PublicKeyJwk
  deriving DecidableEq, Repr

/-- The struct `KeyAgreement` (its field `Type` is `Typ` here). -/
structure KeyAgreement where
  ID : GoString
  Typ : GoString
  Controller : GoString
  PublicKeyMultibase : GoString
  PublicKeyJwk : Option PublicKeyJwk
  deriving DecidableEq, Repr

/-- The struct `Service` (its field `Type` is `Typ` here). -/
structure Service where
  ID : GoString
  Typ : GoString
  ServiceEndpoint : GoString
  Accept : List GoString
  RoutingKeys : List GoString
  deriving DecidableEq, Repr

/-- An element of the `[]interface{}` list `Authentication`: the builder stores
either a string or a `VerificationMethod` value. -/
inductive AuthEntry where
  | str (s : GoString)
  | vm (v : VerificationMethod)
  deriving DecidableEq, Repr

/-- The struct `Document`. -/
structure Document where
  Context : List GoString
  ID : DID
  AlsoKnownAs : List GoString
  Authentication : List AuthEntry
  VerificationMethod : List VerificationMethod
  KeyAgreement : List KeyAgreement
  Service : List Service
  deriving DecidableEq, Repr

/-- The method `PublicKeyJwk.GetRawKey`; calling `Raw` on a `nil` key panics. -/
def PublicKeyJwk.GetRawKey (pk : PublicKeyJwk) : Option (Option RawKey × Option Error) :=
  match pk.Key with
  | none => none
  | some key =>
    match key.Raw with
    | (_, some err) => some (none, some err)
    | (rawkey, none) => some (rawkey, none)

/-- The method `VerificationMethod.GetPublicKey`; the result is the pointer to
the public key (`none` for `nil`) and the error. -/
def VerificationMethod.GetPublicKey (vm : VerificationMethod) :
    Option (Option Bytes × Option Error) :=
  match vm.PublicKeyJwk with
  | some pkj =>
    match pkj.Key with
    | none => some (none, some Error.noKeyFoundInJwk)
    | some jwkKey =>
      let keyType := jwkKey.KeyType
      if keyType = jwaOKP then
        match pkj.GetRawKey with
        | none => none
        | some (_, some err) => some (none, some err)
        | some (k, none) =>
          match k with
          | some (RawKey.ed25519PublicKey ek) => some (some ek, none)
          | _ => some (none, some Error.onlyEd25519Supported)
      else some (none, some (Error.unsupportedKeyType keyType))
  | none => some (none, some Error.noPublicKeyInVerificationMethod)

/-- The loop of `Document.GetVerificationPublicKey` over the verification methods. -/
def getVerificationLoop (id : GoString) :
    List VerificationMethod → Option (Option Bytes × Option Error)
  | [] => some (none, some Error.noKeyFoundByThatID)
  | vm :: rest =>
    if id = vm.ID ∨ id = lit "" then vm.GetPublicKey else getVerificationLoop id rest

/-- The method `Document.GetVerificationPublicKey`. -/
def Document.GetVerificationPublicKey (d : Document) (id : GoString) :
    Option (Option Bytes × Option Error) :=
  getVerificationLoop id d.VerificationMethod

/-- The method `KeyAgreement.GetPublicKey`. -/
def KeyAgreement.GetPublicKey (ka : KeyAgreement) : Option Bytes × Option Error :=
  if ka.PublicKeyMultibase = lit "" then (none, some Error.noPublicKeyInKeyAgreement)
  else
    match base58Decode ka.PublicKeyMultibase with
    | (_, some err) => (none, some err)
    | (decoded, none) => (some decoded, none)

/-- The result of a loop of the builder: a panic, an early `return nil, err`, or
the list built. -/
inductive LoopResult (α : Type) where
  | panic
  | failed (err : Error)
  | done (xs : List α)
  deriving DecidableEq, Repr

/-- The loop of `NewMailioDIDDocument` over `mk.VerificationKeys`; `i` is the
loop index and `acc` the verification methods appended so far. -/
def verificationKeysLoop (FromRaw : FromRawFn) (did : DID) :
    Nat → List (Option Key) → List VerificationMethod → LoopResult VerificationMethod
  | _, [], acc => LoopResult.done acc
  | i, vk :: rest, acc =>
    match vk with
    | none => LoopResult.panic
    | some vk =>
      match FromRaw vk.PublicKey with
      | (_, some rkErr) => LoopResult.failed rkErr
      | (none, none) => LoopResult.panic
      | (some rawKey, none) =>
        let pk : PublicKeyJwk := { Key := some rawKey }
        let verificationMethod : VerificationMethod :=
          { Typ := PublicKeyJwkType
            Controller := did.String
            PublicKeyJwk := some pk
            ID := lit "#" ++ Itoa (i + 1) }
        verificationKeysLoop FromRaw did (i + 1) rest (acc ++ [verificationMethod])

/-- The loop of `NewMailioDIDDocument` over `mk.AuthenticationKeys`; `acc` is the
authentication entries appended so far. -/
def authenticationKeysLoop (FromRaw : FromRawFn) (did : DID) :
    List (Option Key) → List AuthEntry → LoopResult AuthEntry
  | [], acc => LoopResult.done acc
  | vk :: rest, acc =>
    match vk with
    | none => LoopResult.panic
    | some vk =>
      match FromRaw vk.PublicKey with
      | (_, some rkErr) => LoopResult.failed rkErr
      | (none, none) => LoopResult.panic
      | (some rawKey, none) =>
        let pk : PublicKeyJwk := { Key := some rawKey }
        let authMethod : VerificationMethod :=
          { Typ := PublicKeyJwkType
            Controller := did.String
            PublicKeyJwk := some pk
            ID := [] }
        authenticationKeysLoop FromRaw did rest (acc ++ [AuthEntry.vm authMethod])

/-- The master entry step of `NewMailioDIDDocument`: the verification methods
after the block `if mk.MasterSignKey != nil`. -/
def masterVerificationMethod (FromRaw : FromRawFn) (did : DID) (mk : MailioKey) :
    LoopResult VerificationMethod :=
  match mk.MasterSignKey with
  | none => LoopResult.done []
  | some msk =>
    match FromRaw msk.PublicKey with
    | (_, some rkErr) => LoopResult.failed rkErr
    | (none, none) => LoopResult.panic
    | (some rawKey, none) =>
      let pk : PublicKeyJwk := { Key := some rawKey }
      let verificationMethod : VerificationMethod :=
        { Typ := PublicKeyJwkType
          Controller := did.String
          PublicKeyJwk := some pk
          ID := did.String ++ lit "#master" }
      LoopResult.done ([] ++ [verificationMethod])

/-- The key-agreement step of `NewMailioDIDDocument`. -/
def keyAgreementsOf (did : DID) (mk : MailioKey) : List KeyAgreement :=
  match mk.MasterAgreementKey with
  | none => []
  | some mak =>
    let agreementMethod : KeyAgreement :=
      { Typ := KeyTypeX25519KeyAgreement
        Controller := did.String
        PublicKeyMultibase := base58Encode mak.PublicKey
        ID := did.String
        PublicKeyJwk := none }
    [] ++ [agreementMethod]

/-- The function `NewMailioDIDDocument`. The outer `Option` is `none` for a
panic; the pair is the document pointer (`none` for `nil`) and the error. -/
def NewMailioDIDDocument (FromRaw : FromRawFn) (mk : MailioKey) (mailioPublicKey : Bytes)
    (AuthServiceEndpoint MessageServiceEndpoint : GoString) :
    Option (Option Document × Option Error) :=
  match mk.DIDFromKey with
  | none => none
  | some (_, some err) => some (none, some err)
  | some (did, none) =>
    let mailioMk : MailioKey :=
      { MasterSignKey := some { Typ := KeyTypeEd25519, PublicKey := mailioPublicKey }
        MasterAgreementKey := none
        VerificationKeys := []
        AuthenticationKeys := [] }
    match mailioMk.DIDFromKey with
    | none => none
    | some (_, some mErr) => some (none, some mErr)
    | some (mailioDid, none) =>
      match masterVerificationMethod FromRaw did mk with
      | LoopResult.panic => none
      | LoopResult.failed rkErr => some (none, some rkErr)
      | LoopResult.done verificationMethods0 =>
        let keyAgreements := keyAgreementsOf did mk
        match verificationKeysLoop FromRaw did 0 mk.VerificationKeys verificationMethods0 with
        | LoopResult.panic => none
        | LoopResult.failed rkErr => some (none, some rkErr)
        | LoopResult.done verificationMethods =>
          let authMethod := did.String ++ lit "#master"
          match authenticationKeysLoop FromRaw did mk.AuthenticationKeys
              ([] ++ [AuthEntry.str authMethod]) with
          | LoopResult.panic => none
          | LoopResult.failed rkErr => some (none, some rkErr)
          | LoopResult.done authMethods =>
            let doc : Document :=
              { Context := [CtxDIDv1, CtxSecEd25519_2020v1, CtxSecX25519_2019v1]
                ID := did
                AlsoKnownAs := []
                VerificationMethod := verificationMethods
                Authentication := authMethods
                Service :=
                  [ { ID := mailioDid.String ++ lit "#auth"
                      Typ := AuthenticationDIDType
                      ServiceEndpoint := AuthServiceEndpoint ++ lit "/" ++ did.Value
                      Accept := []
                      RoutingKeys := [] },
                    { ID := mailioDid.String ++ lit "#didcomm"
                      Typ := MessagingDIDType
                      ServiceEndpoint := MessageServiceEndpoint ++ lit "/" ++ did.Value
                      Accept := [lit "didcomm/v2", lit "didcomm/aip2;env=rfc587"]
                      RoutingKeys := [] } ]
                KeyAgreement := keyAgreements }
            some (some doc, none)

/-! ## Verifiable credentials (`types.go`, `verifiable_credential.go`) -/

/-- A value of `time.Time`: an instant, as a count of nanoseconds. -/
structure Time where
  nanos : Int
  deriving DecidableEq, Repr

/-- The struct `AuthorizedApplication`. -/
structure AuthorizedApplication where
  ID : GoString
  Domains : List GoString
  ApprovalDate : Time
  UserPermissions : List GoString
  deriving DecidableEq, Repr

/-- The struct `CredentialSubject`. -/
structure CredentialSubject where
  ID : GoString
  Origin : GoString
  AuthorizedApplication : Option AuthorizedApplication
  deriving DecidableEq, Repr

/-- The struct `CredentialStatus` (its field `Type` is `Typ` here). -/
structure CredentialStatus where
  ID : GoString
  Typ : GoString
  deriving DecidableEq, Repr

/-- The struct `Proof` (its field `Type` is `Typ` here). -/
structure Proof where
  Typ : GoString
  Created : Time
  ProofPurpose : GoString
  VerificationMethod : GoString
  Challenge : GoString
  Domain : GoString
  Jws : GoString
  deriving DecidableEq, Repr

/-- The struct `VerifiableCredential` (its field `Type` is `Typ` here). -/
structure VerifiableCredential where
  Context : List GoString
  ID : GoString
  Typ : List GoString
  Issuer : GoString
  IssuanceDate : Time
  CredentialSubject : CredentialSubject
  Proof : Option Proof
  CredentialStatus : Option CredentialStatus
  deriving DecidableEq, Repr

/-- The libraries the credential engine calls, as capabilities: `cbor.Marshal`
and `cbor.Unmarshal` on a credential, and `jws.Sign` and `jws.Verify` with the
`EdDSA` algorithm and a key. Each returns its value and its error; `jws.Verify`
can also panic (`ed25519.Verify` does on a public key whose length is not 32),
and `none` stands for that panic. `jws.Sign` is modelled on the private keys on
which it returns. -/
structure Libs where
  cborMarshal : VerifiableCredential → Bytes × Option Error
  cborUnmarshal : Bytes → VerifiableCredential × Option Error
  jwsSign : Bytes → Bytes → Bytes × Option Error
  jwsVerify : Bytes → Bytes → Option (Bytes × Option Error)

/-- The function `NewVerifiableCredential`; `now` is the reading of `time.Now()`. -/
def NewVerifiableCredential (now : Time) (mailioDID : GoString) : VerifiableCredential :=
  { Context := [lit "https://www.w3.org/2018/credentials/v1"]
    ID := []
    Typ := [lit "VerifiableCredential", lit "MailioAppCredential"]
    Issuer := mailioDID
    IssuanceDate := now
    CredentialSubject := { ID := [], Origin := [], AuthorizedApplication := none }
    Proof := none
    CredentialStatus := none }

/-- The method `CreateProof`: the credential after the call and the error;
`now` is the reading of `time.Now()`. -/
def VerifiableCredential.CreateProof (L : Libs) (now : Time) (vc : VerifiableCredential)
    (privateKey : Bytes) : VerifiableCredential × Option Error :=
  match L.cborMarshal vc with
  | (_, some err) => (vc, some err)
  | (cbor, none) =>
    match L.jwsSign cbor privateKey with
    | (_, some err) => (vc, some err)
    | (signature, none) =>
      ({ vc with
          Proof := some
            { Typ := KeyTypeEd25519
              Created := now
              ProofPurpose := lit "assertionMethod"
              VerificationMethod := vc.Issuer
              Challenge := []
              Domain := []
              Jws := signature } }, none)

/-- The method `VerifyProof`; the outer `Option` is `none` for a panic (the one
of `jws.Verify`, which the method does not recover). -/
def VerifiableCredential.VerifyProof (L : Libs) (vc : VerifiableCredential) (publicKey : Bytes) :
    Option (Bool × Option Error) :=
  match vc.Proof with
  | none => some (false, some Error.proofIsNil)
  | some proof =>
    if proof.Jws = lit "" then some (false, some Error.jwsIsEmpty)
    else
      let message := proof.Jws
      match L.jwsVerify message publicKey with
      | none => none
      | some (_, some err) => some (false, some err)
      | some (contentPayload, none) =>
        match L.cborUnmarshal contentPayload with
        | (_, some umsErr) => some (false, some umsErr)
        | (vcVerify, none) =>
          if vcVerify.Issuer ≠ vc.Issuer then some (false, some Error.issuerIsNotMatch)
          else some (true, none)

/-- The assumption on the signature scheme, for a key pair and one payload: what
`jws.Sign` produces from this payload under the private key is a serialized
message (never the empty string) that `jws.Verify` accepts under the public key,
returning the payload. -/
def SignatureRoundTrips (L : Libs) (privateKey publicKey payload : Bytes) : Prop :=
  ∀ signature, L.jwsSign payload privateKey = (signature, none) →
    signature ≠ [] ∧ L.jwsVerify signature publicKey = some (payload, none)

/-- The assumption on the binary codec, for one credential: decoding what was
encoded from this credential succeeds and recovers the issuer that was encoded. -/
def CborRecoversIssuer (L : Libs) (vc : VerifiableCredential) : Prop :=
  ∀ b, L.cborMarshal vc = (b, none) →
    ∃ vc', L.cborUnmarshal b = (vc', none) ∧ vc'.Issuer = vc.Issuer

/-- The size of an Ed25519 public key, `ed25519.PublicKeySize`. -/
def ed25519PublicKeySize : Nat := 32

/-- A small instance of the capabilities, for the witnesses: the encoding of a
credential is its issuer, a signature is the payload behind one byte naming the
key, and verification checks that byte. As with `ed25519.Verify`, the
verification of a message under a public key whose length is not 32 panics; the
empty message is rejected with an error before the key is looked at. -/
def toyLibs : Libs :=
  { cborMarshal := fun vc => (vc.Issuer, none)
    cborUnmarshal := fun b => ({ NewVerifiableCredential ⟨0⟩ b with Issuer := b }, none)
    jwsSign := fun payload key => (key.headD 0 :: payload, none)
    jwsVerify := fun message key =>
      match message with
      | [] => some ([], some (Error.external 3))
      | k :: payload =>
        if key.length ≠ ed25519PublicKeySize then none
        else if k = key.headD 0 then some (payload, none)
        else some ([], some (Error.external 4)) }

/-- A private key of the size of an Ed25519 private key, 64 bytes. -/
def toyPrivateKey : Bytes := List.replicate 64 7

/-- The public key of 32 bytes that matches `toyPrivateKey` in `toyLibs`. -/
def toyPublicKey : Bytes := List.replicate 32 7

/-- Another public key of 32 bytes, which matches no signature of
`toyPrivateKey`. -/
def otherPublicKey : Bytes := List.replicate 32 8

/-! ## A model of the binary encoding of a credential

`cbor.Marshal` encodes a struct field by field under the names of the struct
tags of `types.go`, and leaves out a field tagged `omitempty` when it is empty
(a `nil` pointer, an empty string, an empty list). The model below emits the same
fields in the order of declaration; its byte layout (decimal length, colon,
bytes) stands for the layout of the binary format. -/

/-- A string as the model encodes it: its length, a colon, its bytes. -/
def encText (s : GoString) : Bytes := Itoa s.length ++ lit ":" ++ s

/-- A list of strings: the number of strings, a bracket, the strings. -/
def encTexts (xs : List GoString) : Bytes :=
  Itoa xs.length ++ lit "[" ++ xs.foldr (fun x acc => encText x ++ acc) []

/-- An instant: its sign, its count of nanoseconds, a semicolon. -/
def encTime (t : Time) : Bytes :=
  (if t.nanos < 0 then lit "-" else lit "+") ++ Itoa t.nanos.natAbs ++ lit ";"

/-- A field: its name, then its content. -/
def encField (name : GoString) (content : Bytes) : Bytes := encText name ++ content

/-- A string field tagged `omitempty`. -/
def encTextOmitEmpty (name : GoString) (s : GoString) : Bytes :=
  if s = [] then [] else encField name (encText s)

/-- The fields of an `AuthorizedApplication`. -/
def encAuthorizedApplication (a : AuthorizedApplication) : Bytes :=
  lit "\x7b" ++ encField (lit "id") (encText a.ID) ++ encField (lit "domains") (encTexts a.Domains)
    ++ encField (lit "approvalDate") (encTime a.ApprovalDate)
    ++ (if a.UserPermissions = [] then []
        else encField (lit "userPermissions") (encTexts a.UserPermissions))
    ++ lit "\x7d"

/-- The fields of a `CredentialSubject`. -/
def encCredentialSubject (c : CredentialSubject) : Bytes :=
  lit "\x7b" ++ encField (lit "id") (encText c.ID) ++ encTextOmitEmpty (lit "origin") c.Origin
    ++ (match c.AuthorizedApplication with
        | none => []
        | some a => encField (lit "authorizedApplication") (encAuthorizedApplication a))
    ++ lit "\x7d"

/-- The fields of a `Proof`. -/
def encProof (p : Proof) : Bytes :=
  lit "\x7b" ++ encField (lit "type") (encText p.Typ) ++ encField (lit "created") (encTime p.Created)
    ++ encField (lit "proofPurpose") (encText p.ProofPurpose)
    ++ encField (lit "verificationMethod") (encText p.VerificationMethod)
    ++ encTextOmitEmpty (lit "challenge") p.Challenge
    ++ encTextOmitEmpty (lit "domain") p.Domain
    ++ encField (lit "jws") (encText p.Jws) ++ lit "\x7d"

/-- The fields of a `CredentialStatus`. -/
def encCredentialStatus (c : CredentialStatus) : Bytes :=
  lit "\x7b" ++ encField (lit "id") (encText c.ID) ++ encField (lit "type") (encText c.Typ) ++ lit "\x7d"

/-- The model of `cbor.Marshal` on a credential: the field `proof`, tagged
`omitempty`, is emitted exactly when the pointer `Proof` is not `nil`. -/
def cborMarshalModel (vc : VerifiableCredential) : Bytes :=
  lit "\x7b" ++ encField (lit "@context") (encTexts vc.Context)
    ++ encTextOmitEmpty (lit "id") vc.ID
    ++ encField (lit "type") (encTexts vc.Typ)
    ++ encField (lit "issuer") (encText vc.Issuer)
    ++ encField (lit "issuanceDate") (encTime vc.IssuanceDate)
    ++ encField (lit "credentialSubject") (encCredentialSubject vc.CredentialSubject)
    ++ (match vc.Proof with
        | none => []
        | some p => encField (lit "proof") (encProof p))
    ++ (match vc.CredentialStatus with
        | none => []
        | some c => encField (lit "credentialStatus") (encCredentialStatus c))
    ++ lit "\x7d"

/-- The capabilities with the field-by-field encoder `cborMarshalModel` and the
signer of `toyLibs`; the decoder is not modelled and always fails. -/
def recordLibs : Libs :=
  { cborMarshal := fun vc => (cborMarshalModel vc, none)
    cborUnmarshal := fun _ => (NewVerifiableCredential ⟨0⟩ [], some (Error.external 5))
    jwsSign := toyLibs.jwsSign
    jwsVerify := toyLibs.jwsVerify }

/-- A credential that carries a proof: a fresh credential of the issuer
`did:mailio:0xabc`, sealed once with `CreateProof`. -/
def sealedCredential : VerifiableCredential :=
  (VerifiableCredential.CreateProof recordLibs ⟨2⟩
    (NewVerifiableCredential ⟨1⟩ (lit "did:mailio:0xabc")) toyPrivateKey).1

/-- The key-object encoding of a key fails: `FromRaw` returns an error for the
bytes of the key (a `nil` key has no bytes to encode). -/
def encodingFails (FromRaw : FromRawFn) (k : Option Key) : Bool :=
  match k with
  | none => false
  | some key => (FromRaw key.PublicKey).2.isSome

/-- The key-object encoding of the master signing key, of an auxiliary
verification key or of an auxiliary authentication key fails. -/
def anyEncodingFails (FromRaw : FromRawFn) (mk : MailioKey) : Bool :=
  encodingFails FromRaw mk.MasterSignKey || mk.VerificationKeys.any (encodingFails FromRaw)
    || mk.AuthenticationKeys.any (encodingFails FromRaw)

/-- No entry of the two lists of auxiliary keys is a `nil` pointer. -/
def noNilEntry (mk : MailioKey) : Bool :=
  mk.VerificationKeys.all Option.isSome && mk.AuthenticationKeys.all Option.isSome

/-- The contract of the key-object encoder: when it returns no error it returns
a key object (not a `nil` interface). -/
def EncoderReturnsKey (FromRaw : FromRawFn) : Prop :=
  ∀ b, (FromRaw b).2 = none → (FromRaw b).1 ≠ none

/-- A key-object encoder that fails on the empty byte sequence and round-trips
every other key. -/
def jwkFromRawStrict : FromRawFn := fun b =>
  if b = [] then (none, some (Error.external 6)) else jwkFromRaw b

/-- The assumption that the key-object codec round-trips a key it encoded: a key
object that `FromRaw` builds without error from the bytes `b` is an
octet-key-pair key whose `Raw` gives back `b` as an `ed25519.PublicKey`. -/
def CodecRoundTrips (FromRaw : FromRawFn) : Prop :=
  ∀ b key, FromRaw b = (some key, none) →
    key.KeyType = jwaOKP ∧ key.Raw = (some (RawKey.ed25519PublicKey b), none)

/-- A lowercase hexadecimal digit, `[0-9a-f]`. -/
def isLowerHexDigit (c : UInt8) : Bool := (48 ≤ c && c ≤ 57) || (97 ≤ c && c ≤ 102)

/-- The pattern `^0x[0-9a-f]{40}$` of the specification. -/
def matchesAddressPattern : GoString → Bool
  | 48 :: 120 :: t => t.length == 40 && t.all isLowerHexDigit
  | _ => false

/-- The last `n` characters of a string, in the words of the specification. -/
def lastChars (n : Nat) (s : GoString) : GoString := s.drop (s.length - n)

/-! # Theorems -/

/-! ## Test vectors of the library models -/

theorem sha256_abc :
    hexEncodeToString (Sha256.sum (lit "abc"))
      = lit "ba7816bf8f01cfea414140de5dae2223b00361a396177a9cb410ff61f20015ad" := by
  decide!

theorem sha256_empty :
    hexEncodeToString (Sha256.sum (lit ""))
      = lit "e3b0c44298fc1c149afbf4c8996fb92427ae41e4649b934ca495991b7852b855" := by
  decide!

theorem sha256_two_blocks :
    hexEncodeToString
        (Sha256.sum (lit "abcdbcdecdefdefgefghfghighijhijkijkljklmklmnlmnomnopnopq"))
      = lit "248d6a61d20638b8e5c026930c3e6039a33ce45964ff2167f6ecedd419db06c1" := by
  decide!

theorem base64_vectors :
    base64EncodeToString (lit "") = lit "" ∧
    base64EncodeToString (lit "f") = lit "Zg==" ∧
    base64EncodeToString (lit "fo") = lit "Zm8=" ∧
    base64EncodeToString (lit "foo") = lit "Zm9v" ∧
    base64EncodeToString (lit "foobar") = lit "Zm9vYmFy" ∧
    base64EncodeToString [251, 255] = lit "+/8=" := by
  decide!

theorem base58_vectors :
    base58Encode (lit "Hello World!") = lit "2NEpo7TZRRrLZSi2U" ∧
    base58Encode [0, 0, 40, 127, 180, 205] = lit "11233QC4" ∧
    base58Encode [] = lit "" ∧
    base58Decode (lit "11233QC4") = ([0, 0, 40, 127, 180, 205], none) ∧
    (base58Decode (lit "")).2 ≠ none ∧
    (base58Decode (lit "0OIl")).2 ≠ none := by
  decide!

theorem Itoa_vectors :
    Itoa 0 = lit "0" ∧ Itoa 1 = lit "1" ∧ Itoa 10 = lit "10" ∧ Itoa 1234 = lit "1234" := by
  decide!

theorem SplitN_vectors :
    SplitN (lit "a,b,c,d") 44 2 = [lit "a", lit "b,c,d"] ∧
    SplitN (lit "a,b,c,d") 44 3 = [lit "a", lit "b", lit "c,d"] ∧
    SplitN (lit "a,b") 44 3 = [lit "a", lit "b"] ∧
    SplitN (lit "") 44 3 = [lit ""] ∧
    SplitN (lit ",") 44 3 = [lit "", lit ""] ∧
    SplitN (lit "a,b") 44 0 = [] ∧
    Replace (lit "##a#") 35 (lit "") 1 = lit "#a#" := by
  decide!

/-- The identifier of the key material whose master signing key has the bytes
`1 2 3`: the Base64 form of the key is `AQID`, and the address is cut from the
SHA-256 digest of that text. -/
theorem DIDFromKey_vector :
    MailioKey.DIDFromKey ⟨some ⟨[1, 2, 3], KeyTypeEd25519⟩, none, [], []⟩ =
      some ({ raw := lit "did:mailio:0x0b005308e167ee984365690e638c1481b8ca2936"
              proto := lit "mailio"
              value := lit "0x0b005308e167ee984365690e638c1481b8ca2936"
              fragment := [] }, none) := by
  decide!

/-! ## Lemmas on the string functions -/

theorem lit_hash : lit "#" = [35] := by decide

theorem lit_colon : lit ":" = [58] := by decide

theorem lit_empty : lit "" = [] := by decide

theorem lit_did : lit "did" = [100, 105, 100] := by decide

theorem lit_didColon : lit "did:" = [100, 105, 100, 58] := by decide

theorem IndexByte_eq_none {s : GoString} {c : UInt8} (h : c ∉ s) : IndexByte s c = none := by
  induction s with
  | nil => rfl
  | cons b rest ih =>
    simp only [List.mem_cons, not_or] at h
    have hb : ¬ b = c := fun e => h.1 e.symm
    simp [IndexByte, hb, ih h.2]

theorem IndexByte_append_cons {a : GoString} (b : GoString) {c : UInt8} (h : c ∉ a) :
    IndexByte (a ++ c :: b) c = some a.length := by
  induction a with
  | nil => simp [IndexByte]
  | cons x rest ih =>
    simp only [List.mem_cons, not_or] at h
    have hx : ¬ x = c := fun e => h.1 e.symm
    simp [IndexByte, hx, ih h.2]

theorem IndexByte_lt {s : GoString} {c : UInt8} {m : Nat} (h : IndexByte s c = some m) :
    m < s.length := by
  induction s generalizing m with
  | nil => simp [IndexByte] at h
  | cons b rest ih =>
    by_cases hb : b = c
    · simp [IndexByte, hb] at h
      subst h
      simp
    · simp only [IndexByte, hb, if_false, Option.map_eq_some'] at h
      obtain ⟨k, hk, rfl⟩ := h
      have := ih hk
      simp
      omega

theorem splitLoop_ne_nil (s : GoString) (sep : UInt8) (k : Nat) : splitLoop s sep k ≠ [] := by
  cases k with
  | zero => simp [splitLoop]
  | succ k =>
    unfold splitLoop
    split <;> simp

theorem segments_ne_nil (sep : UInt8) (s : GoString) : segments sep s ≠ [] := by
  cases s with
  | nil => simp [segments]
  | cons b rest =>
    unfold segments
    split
    · simp
    · split <;> simp

theorem segments_of_index_none {s : GoString} {sep : UInt8} (h : IndexByte s sep = none) :
    segments sep s = [s] := by
  induction s with
  | nil => rfl
  | cons b rest ih =>
    by_cases hb : b = sep
    · simp [IndexByte, hb] at h
    · simp only [IndexByte, hb, if_false, Option.map_eq_none'] at h
      simp [segments, hb, ih h]

theorem segments_of_index_some {s : GoString} {sep : UInt8} {m : Nat}
    (h : IndexByte s sep = some m) :
    segments sep s = s.take m :: segments sep (s.drop (m + 1)) := by
  induction s generalizing m with
  | nil => simp [IndexByte] at h
  | cons b rest ih =>
    by_cases hb : b = sep
    · simp [IndexByte, hb] at h
      subst h
      simp [segments, hb]
    · simp only [IndexByte, hb, if_false, Option.map_eq_some'] at h
      obtain ⟨k, hk, rfl⟩ := h
      simp [segments, hb, ih hk]

theorem splitLoop_length (s : GoString) (sep : UInt8) (k : Nat) :
    (splitLoop s sep k).length = min (k + 1) (segments sep s).length := by
  induction k generalizing s with
  | zero =>
    have := List.length_pos.mpr (segments_ne_nil sep s)
    simp [splitLoop]
    omega
  | succ k ih =>
    unfold splitLoop
    cases h : IndexByte s sep with
    | none => simp [segments_of_index_none h]
    | some m =>
      simp only [List.length_cons, ih, segments_of_index_some h]
      omega

theorem splitLoop_head (s : GoString) (sep : UInt8) (k : Nat) :
    (splitLoop s sep (k + 1)).getD 0 [] = (segments sep s).getD 0 [] := by
  unfold splitLoop
  cases h : IndexByte s sep with
  | none => simp [segments_of_index_none h]
  | some m => simp [segments_of_index_some h]

theorem segments_length_le (sep : UInt8) (s : GoString) :
    (segments sep s).length ≤ s.length + 1 := by
  induction s with
  | nil => simp [segments]
  | cons b rest ih =>
    unfold segments
    split
    · simp
      omega
    · split
      · simp
      · rename_i h t heq
        rw [heq] at ih
        simp at ih ⊢
        omega

theorem segments_head (sep : UInt8) (s : GoString) :
    (segments sep s).head? = some (s.takeWhile (fun b => b != sep)) := by
  induction s with
  | nil => rfl
  | cons b rest ih =>
    by_cases hb : b = sep
    · simp [segments, hb]
    · have hne : (b != sep) = true := by simpa using hb
      cases hseg : segments sep rest with
      | nil => exact absurd hseg (segments_ne_nil sep rest)
      | cons h t =>
        rw [hseg] at ih
        simp only [List.head?_cons, Option.some.injEq] at ih
        simp [segments, hb, hseg, List.takeWhile_cons, hne, ih]

theorem getD_zero_eq_of_head? {l : List GoString} {x : GoString} (h : l.head? = some x) :
    l.getD 0 [] = x := by
  cases l with
  | nil => simp at h
  | cons a t => simpa using h

/-- The first piece `dfrag[0]` of `ParseDID` is the part before the first `#`. -/
theorem SplitN_hash_head (s : GoString) : (SplitN s 35 2).getD 0 [] = beforeFragment s := by
  cases s with
  | nil => simp [SplitN, splitLoop, beforeFragment]
  | cons b rest =>
    have hk : (if 2 > (b :: rest).length + 1 then (b :: rest).length + 1 else 2) - 1 = 0 + 1 := by
      simp
    simp only [SplitN, hk]
    rw [if_neg (by decide), splitLoop_head]
    exact getD_zero_eq_of_head? (segments_head 35 _)

/-- The number of pieces `len(segm)` of `ParseDID` is three exactly when the
string has at least three segments. -/
theorem SplitN_three_length (c : GoString) :
    (SplitN c 58 3).length = 3 ↔ 3 ≤ (segments 58 c).length := by
  have hle := segments_length_le 58 c
  simp only [SplitN]
  rw [if_neg (by decide), splitLoop_length]
  split <;> omega

theorem SplitN_three_head (c : GoString) (h : 3 ≤ (segments 58 c).length) :
    (SplitN c 58 3).getD 0 [] = c.takeWhile (fun b => b != 58) := by
  have hle := segments_length_le 58 c
  have hk : (if 3 > c.length + 1 then c.length + 1 else 3) - 1 = 1 + 1 := by
    split <;> omega
  simp only [SplitN, hk]
  rw [if_neg (by decide), splitLoop_head]
  exact getD_zero_eq_of_head? (segments_head 58 _)

theorem takeWhile_append_cons_stop {a : GoString} (b : GoString) {c : UInt8} (h : c ∉ a) :
    (a ++ c :: b).takeWhile (fun x => x != c) = a := by
  induction a with
  | nil => simp [List.takeWhile_cons]
  | cons x rest ih =>
    simp only [List.mem_cons, not_or] at h
    have hx : (x != c) = true := by simpa using fun e : x = c => h.1 e.symm
    simp [List.takeWhile_cons, hx, ih h.2]

theorem takeWhile_all {a : GoString} {c : UInt8} (h : c ∉ a) :
    a.takeWhile (fun x => x != c) = a := by
  induction a with
  | nil => rfl
  | cons x rest ih =>
    simp only [List.mem_cons, not_or] at h
    have hx : (x != c) = true := by simpa using fun e : x = c => h.1 e.symm
    simp [List.takeWhile_cons, hx, ih h.2]

/-- Splitting `did:<m>:<v>` on `:` into at most three pieces gives `did`, `m`, `v`
when `m` has no colon (`v` may have some). -/
theorem SplitN_colon_core (m v : GoString) (hm : (58 : UInt8) ∉ m) :
    SplitN ([100, 105, 100, 58] ++ m ++ 58 :: v) 58 3 = [[100, 105, 100], m, v] := by
  have hk : (if 3 > ([100, 105, 100, 58] ++ m ++ 58 :: v : GoString).length + 1
      then ([100, 105, 100, 58] ++ m ++ 58 :: v : GoString).length + 1 else 3) - 1 = 2 := by
    simp
  simp only [SplitN, hk]
  rw [if_neg (by decide)]
  have h1 : IndexByte ([100, 105, 100, 58] ++ m ++ 58 :: v) 58 = some 3 := by
    have : ([100, 105, 100, 58] ++ m ++ 58 :: v : GoString)
        = [100, 105, 100] ++ 58 :: (m ++ 58 :: v) := by simp
    rw [this, IndexByte_append_cons _ (by decide)]
    rfl
  have h2 : IndexByte (m ++ 58 :: v) 58 = some m.length := IndexByte_append_cons v hm
  have e1 : ([100, 105, 100, 58] ++ m ++ 58 :: v : GoString).take 3 = [100, 105, 100] := by simp
  have e2 : ([100, 105, 100, 58] ++ m ++ 58 :: v : GoString).drop (3 + 1) = m ++ 58 :: v := by
    simp
  have e3 : (m ++ 58 :: v).take m.length = m := by simp
  have e4 : (m ++ 58 :: v).drop (m.length + 1) = v := by simp
  rw [splitLoop, h1]
  simp only [e1, e2]
  rw [splitLoop, h2]
  simp only [e3, e4]
  rfl

/-- Splitting `c#f` on `#` into at most two pieces gives `c` and `f` when `c` is
not empty and has no `#` (`f` may have some). -/
theorem SplitN_hash_two (c f : GoString) (hc : (35 : UInt8) ∉ c) :
    SplitN (c ++ 35 :: f) 35 2 = [c, f] := by
  cases c with
  | nil => simp [SplitN, splitLoop, IndexByte]
  | cons x rest =>
    have hk : (if 2 > (x :: rest ++ 35 :: f : GoString).length + 1
        then (x :: rest ++ 35 :: f : GoString).length + 1 else 2) - 1 = 1 := by
      simp
    simp only [SplitN, hk]
    rw [if_neg (by decide), splitLoop, IndexByte_append_cons f hc]
    have e3 : (x :: rest ++ 35 :: f).take (x :: rest).length = x :: rest :=
      List.take_left' rfl
    have e4 : (x :: rest ++ 35 :: f).drop ((x :: rest).length + 1) = f := by
      have : (x :: rest ++ 35 :: f : GoString) = (x :: rest ++ [35]) ++ f := by simp
      rw [this]
      exact List.drop_left' (by simp)
    simp only [e3, e4]
    rfl

/-- Splitting a string without `#` on `#` gives the string itself. -/
theorem SplitN_hash_one (c : GoString) (hc : (35 : UInt8) ∉ c) : SplitN c 35 2 = [c] := by
  simp only [SplitN]
  rw [if_neg (by decide)]
  generalize (if 2 > c.length + 1 then c.length + 1 else 2) - 1 = k
  cases k with
  | zero => rfl
  | succ k => rw [splitLoop, IndexByte_eq_none hc]

/-- The fragment expression of `ParseDID`: prepending `#` and replacing the first
`#` by nothing gives the text back, whatever it holds. -/
theorem Replace_hash_once (f : GoString) : Replace (lit "#" ++ f) 35 (lit "") 1 = f := by
  rw [lit_hash, lit_empty]
  have hc : Count ([35] ++ f) 35 = f.count 35 + 1 := by simp [Count]
  unfold Replace
  rw [if_neg (by simp)]
  dsimp only
  rw [hc, if_neg (by omega)]
  have hk : (if f.count 35 + 1 < 1 then f.count 35 + 1 else 1) = 0 + 1 := by
    rw [if_neg (by omega)]
  rw [hk, replaceLoop]
  simp [IndexByte, replaceLoop]

/-! ## The identifier grammar -/

/-- The first return of `ParseDID`: the fragment-only identifier. -/
theorem ParseDID_of_marker (s : GoString) (hp : HasPrefix s (lit "#") = true) :
    ParseDID s = ({ raw := s, proto := [], value := [], fragment := s }, none) := by
  unfold ParseDID
  rw [if_pos hp]

/-- The second return of `ParseDID`: not three pieces. -/
theorem ParseDID_of_not_three (s : GoString) (hp : HasPrefix s (lit "#") = false)
    (h3 : (SplitN (beforeFragment s) 58 3).length ≠ 3) :
    ParseDID s = (DID.zero, some (Error.invalidDidThreeParts (SplitN (beforeFragment s) 58 3))) := by
  unfold ParseDID
  rw [if_neg (by simp [hp])]
  dsimp only
  rw [SplitN_hash_head, if_pos h3]

/-- The third return of `ParseDID`: the first piece is not `did`. -/
theorem ParseDID_of_not_did (s : GoString) (hp : HasPrefix s (lit "#") = false)
    (h3 : (SplitN (beforeFragment s) 58 3).length = 3)
    (hd : (SplitN (beforeFragment s) 58 3).getD 0 [] ≠ lit "did") :
    ParseDID s = (DID.zero, some Error.invalidDidFirstSegment) := by
  unfold ParseDID
  rw [if_neg (by simp [hp])]
  dsimp only
  rw [SplitN_hash_head, if_neg (not_not.mpr h3), if_pos hd]

/-- The last return of `ParseDID`: the full form. -/
theorem ParseDID_of_did (s : GoString) (hp : HasPrefix s (lit "#") = false)
    (h3 : (SplitN (beforeFragment s) 58 3).length = 3)
    (hd : (SplitN (beforeFragment s) 58 3).getD 0 [] = lit "did") :
    ParseDID s =
      ({ raw := s
         proto := (SplitN (beforeFragment s) 58 3).getD 1 []
         value := (SplitN (beforeFragment s) 58 3).getD 2 []
         fragment :=
          if (SplitN s 35 2).length = 2 then
            Replace (lit "#" ++ (SplitN s 35 2).getD 1 []) 35 (lit "") 1
          else [] }, none) := by
  unfold ParseDID
  rw [if_neg (by simp [hp])]
  dsimp only
  rw [SplitN_hash_head, if_neg (not_not.mpr h3), if_neg (not_not.mpr hd)]

/-- C1: for every string `s` that `ParseDID` accepts (it returns a `nil` error),
in the fragment-only form or the full form, the returned identifier's `String()`
is exactly `s`. -/
theorem ParseDID_String_roundtrip (s : GoString) (h : (ParseDID s).2 = none) :
    (ParseDID s).1.String = s := by
  cases hp : HasPrefix s (lit "#") with
  | true => rw [ParseDID_of_marker s hp]; rfl
  | false =>
    by_cases h3 : (SplitN (beforeFragment s) 58 3).length = 3
    · by_cases hd : (SplitN (beforeFragment s) 58 3).getD 0 [] = lit "did"
      · rw [ParseDID_of_did s hp h3 hd]; rfl
      · rw [ParseDID_of_not_did s hp h3 hd] at h
        exact absurd h (by simp)
    · rw [ParseDID_of_not_three s hp h3] at h
      exact absurd h (by simp)

/-- Witness of C1 at `"did:mailio:1234"` (the input of `TestParseDID`). -/
theorem ParseDID_String_roundtrip_witness :
    (ParseDID (lit "did:mailio:1234")).2 = none ∧
      (ParseDID (lit "did:mailio:1234")).1.String = lit "did:mailio:1234" :=
  ⟨by decide, ParseDID_String_roundtrip (lit "did:mailio:1234") (by decide)⟩

/-- The full form `did:<m>:<v>` does not start with `#`, and the part before
its fragment marker has no `#`. -/
theorem core_no_hash (m v : GoString) (hm : (35 : UInt8) ∉ m) (hv : (35 : UInt8) ∉ v) :
    (35 : UInt8) ∉ lit "did:" ++ m ++ lit ":" ++ v := by
  rw [lit_didColon, lit_colon]
  simp only [List.mem_append, List.mem_cons, List.mem_singleton, not_or]
  refine ⟨⟨⟨by decide, hm⟩, by decide⟩, hv⟩

theorem core_shape (m v : GoString) :
    lit "did:" ++ m ++ lit ":" ++ v = [100, 105, 100, 58] ++ m ++ 58 :: v := by
  rw [lit_didColon, lit_colon]
  simp

/-- The full form with a fragment, as one equation. -/
theorem ParseDID_core_fragment (m v f : GoString) (hm : (58 : UInt8) ∉ m)
    (hm2 : (35 : UInt8) ∉ m) (hv : (35 : UInt8) ∉ v) :
    ParseDID (lit "did:" ++ m ++ lit ":" ++ v ++ lit "#" ++ f) =
      ({ raw := lit "did:" ++ m ++ lit ":" ++ v ++ lit "#" ++ f, proto := m, value := v,
         fragment := f }, none) := by
  have hc := core_no_hash m v hm2 hv
  have hsplit : SplitN (lit "did:" ++ m ++ lit ":" ++ v) 58 3 = [lit "did", m, v] := by
    rw [core_shape, SplitN_colon_core m v hm, lit_did]
  have hs : lit "did:" ++ m ++ lit ":" ++ v ++ lit "#" ++ f
      = (lit "did:" ++ m ++ lit ":" ++ v) ++ 35 :: f := by
    rw [lit_hash]; simp
  rw [hs]
  have hp : HasPrefix ((lit "did:" ++ m ++ lit ":" ++ v) ++ 35 :: f) (lit "#") = false := by
    rw [lit_didColon, lit_hash]
    rfl
  have hb : beforeFragment ((lit "did:" ++ m ++ lit ":" ++ v) ++ 35 :: f)
      = lit "did:" ++ m ++ lit ":" ++ v := takeWhile_append_cons_stop f hc
  have h3 : (SplitN (beforeFragment ((lit "did:" ++ m ++ lit ":" ++ v) ++ 35 :: f)) 58 3).length
      = 3 := by rw [hb, hsplit]; rfl
  have hd : (SplitN (beforeFragment ((lit "did:" ++ m ++ lit ":" ++ v) ++ 35 :: f)) 58 3).getD 0 []
      = lit "did" := by rw [hb, hsplit]; rfl
  rw [ParseDID_of_did _ hp h3 hd, hb, hsplit, SplitN_hash_two _ f hc]
  have hf : (if ([lit "did:" ++ m ++ lit ":" ++ v, f] : List GoString).length = 2 then
      Replace (lit "#" ++ ([lit "did:" ++ m ++ lit ":" ++ v, f] : List GoString).getD 1 []) 35
        (lit "") 1 else []) = f := Replace_hash_once f
  rw [hf]
  rfl

/-- The full form without a fragment, as one equation. -/
theorem ParseDID_core (m v : GoString) (hm : (58 : UInt8) ∉ m)
    (hm2 : (35 : UInt8) ∉ m) (hv : (35 : UInt8) ∉ v) :
    ParseDID (lit "did:" ++ m ++ lit ":" ++ v) =
      ({ raw := lit "did:" ++ m ++ lit ":" ++ v, proto := m, value := v, fragment := [] },
        none) := by
  have hc := core_no_hash m v hm2 hv
  have hsplit : SplitN (lit "did:" ++ m ++ lit ":" ++ v) 58 3 = [lit "did", m, v] := by
    rw [core_shape, SplitN_colon_core m v hm, lit_did]
  have hp : HasPrefix (lit "did:" ++ m ++ lit ":" ++ v) (lit "#") = false := by
    rw [lit_didColon, lit_hash]
    rfl
  have hb : beforeFragment (lit "did:" ++ m ++ lit ":" ++ v)
      = lit "did:" ++ m ++ lit ":" ++ v := takeWhile_all hc
  have h3 : (SplitN (beforeFragment (lit "did:" ++ m ++ lit ":" ++ v)) 58 3).length = 3 := by
    rw [hb, hsplit]; rfl
  have hd : (SplitN (beforeFragment (lit "did:" ++ m ++ lit ":" ++ v)) 58 3).getD 0 []
      = lit "did" := by rw [hb, hsplit]; rfl
  rw [ParseDID_of_did _ hp h3 hd, hb, hsplit, SplitN_hash_one _ hc]
  rfl

/-- C2: for a method `m` with neither `:` nor `#`, a value `v` without `#` and
any fragment text `f`, `ParseDID("did:" + m + ":" + v + "#" + f)` succeeds with
`Protocol() = m`, `Value() = v` and `Fragment() = f` (the marker is stripped
exactly once), and `ParseDID("did:" + m + ":" + v)` succeeds with the same method
and value and an empty fragment. -/
theorem ParseDID_full_form (m v f : GoString) (hm : (58 : UInt8) ∉ m)
    (hm2 : (35 : UInt8) ∉ m) (hv : (35 : UInt8) ∉ v) :
    ((ParseDID (lit "did:" ++ m ++ lit ":" ++ v ++ lit "#" ++ f)).2 = none ∧
      (ParseDID (lit "did:" ++ m ++ lit ":" ++ v ++ lit "#" ++ f)).1.Protocol = m ∧
      (ParseDID (lit "did:" ++ m ++ lit ":" ++ v ++ lit "#" ++ f)).1.Value = v ∧
      (ParseDID (lit "did:" ++ m ++ lit ":" ++ v ++ lit "#" ++ f)).1.Fragment = f) ∧
    ((ParseDID (lit "did:" ++ m ++ lit ":" ++ v)).2 = none ∧
      (ParseDID (lit "did:" ++ m ++ lit ":" ++ v)).1.Protocol = m ∧
      (ParseDID (lit "did:" ++ m ++ lit ":" ++ v)).1.Value = v ∧
      (ParseDID (lit "did:" ++ m ++ lit ":" ++ v)).1.Fragment = []) := by
  rw [ParseDID_core_fragment m v f hm hm2 hv, ParseDID_core m v hm hm2 hv]
  exact ⟨⟨rfl, rfl, rfl, rfl⟩, rfl, rfl, rfl, rfl⟩

/-- Witness of C2 at `"did:web:mail.io#0xAlice"` (the input of `TestParseWebDID`). -/
theorem ParseDID_full_form_witness :
    ((ParseDID (lit "did:" ++ lit "web" ++ lit ":" ++ lit "mail.io" ++ lit "#" ++ lit "0xAlice")).2
        = none ∧
      (ParseDID (lit "did:" ++ lit "web" ++ lit ":" ++ lit "mail.io" ++ lit "#" ++ lit "0xAlice")).1.Protocol
        = lit "web" ∧
      (ParseDID (lit "did:" ++ lit "web" ++ lit ":" ++ lit "mail.io" ++ lit "#" ++ lit "0xAlice")).1.Value
        = lit "mail.io" ∧
      (ParseDID (lit "did:" ++ lit "web" ++ lit ":" ++ lit "mail.io" ++ lit "#" ++ lit "0xAlice")).1.Fragment
        = lit "0xAlice") ∧
    ((ParseDID (lit "did:" ++ lit "web" ++ lit ":" ++ lit "mail.io")).2 = none ∧
      (ParseDID (lit "did:" ++ lit "web" ++ lit ":" ++ lit "mail.io")).1.Protocol = lit "web" ∧
      (ParseDID (lit "did:" ++ lit "web" ++ lit ":" ++ lit "mail.io")).1.Value = lit "mail.io" ∧
      (ParseDID (lit "did:" ++ lit "web" ++ lit ":" ++ lit "mail.io")).1.Fragment = []) :=
  ParseDID_full_form (lit "web") (lit "mail.io") (lit "0xAlice") (by decide) (by decide)
    (by decide)

/-- C3: for every string `s` that does not start with `#`, `ParseDID` returns an
error if and only if the part of `s` before its first `#` has fewer than three
colon-delimited segments or its first segment is not the literal `did`; and on
error the returned identifier is the empty value `DID{}`. -/
theorem ParseDID_error_iff (s : GoString) (hs : HasPrefix s (lit "#") = false) :
    ((ParseDID s).2 ≠ none ↔
      ((segments 58 (beforeFragment s)).length < 3 ∨
        (segments 58 (beforeFragment s)).head? ≠ some (lit "did"))) ∧
    ((ParseDID s).2 ≠ none → (ParseDID s).1 = DID.zero) := by
  by_cases h3 : (SplitN (beforeFragment s) 58 3).length = 3
  · have hL := (SplitN_three_length _).mp h3
    have hh := SplitN_three_head _ hL
    by_cases hd : (SplitN (beforeFragment s) 58 3).getD 0 [] = lit "did"
    · rw [ParseDID_of_did s hs h3 hd]
      rw [hh] at hd
      simp only [ne_eq, not_true_eq_false, false_iff, not_or, not_lt, false_implies, and_true]
      exact ⟨hL, by rw [segments_head, hd]; simp⟩
    · rw [ParseDID_of_not_did s hs h3 hd]
      rw [hh] at hd
      refine ⟨⟨fun _ => Or.inr ?_, fun _ => by simp⟩, fun _ => rfl⟩
      rw [segments_head]
      intro e
      exact hd (Option.some.inj e)
  · rw [ParseDID_of_not_three s hs h3]
    have hL : (segments 58 (beforeFragment s)).length < 3 := by
      by_contra hcon
      exact h3 ((SplitN_three_length _).mpr (by omega))
    exact ⟨⟨fun _ => Or.inl hL, fun _ => by simp⟩, fun _ => rfl⟩

/-- Witness of C3 at `"did:web"`: two segments only, an error and the empty value. -/
theorem ParseDID_error_iff_witness :
    ((ParseDID (lit "did:web")).2 ≠ none ↔
      ((segments 58 (beforeFragment (lit "did:web"))).length < 3 ∨
        (segments 58 (beforeFragment (lit "did:web"))).head? ≠ some (lit "did"))) ∧
    ((ParseDID (lit "did:web")).2 ≠ none → (ParseDID (lit "did:web")).1 = DID.zero) :=
  ParseDID_error_iff (lit "did:web") (by decide)

/-- C4: for every string `s` that starts with `#`, `ParseDID` succeeds and returns
a fragment-only identifier: `String() = s`, `Protocol()` and `Value()` are empty,
and `Fragment()` is `s` verbatim, leading `#` included. -/
theorem ParseDID_fragment_only (s : GoString) (hs : HasPrefix s (lit "#") = true) :
    (ParseDID s).2 = none ∧ (ParseDID s).1.String = s ∧ (ParseDID s).1.Protocol = [] ∧
      (ParseDID s).1.Value = [] ∧ (ParseDID s).1.Fragment = s := by
  rw [ParseDID_of_marker s hs]
  exact ⟨rfl, rfl, rfl, rfl, rfl⟩

/-- Witness of C4 at `"#fragonly"`. -/
theorem ParseDID_fragment_only_witness :
    (ParseDID (lit "#fragonly")).2 = none ∧
      (ParseDID (lit "#fragonly")).1.String = lit "#fragonly" ∧
      (ParseDID (lit "#fragonly")).1.Protocol = [] ∧
      (ParseDID (lit "#fragonly")).1.Value = [] ∧
      (ParseDID (lit "#fragonly")).1.Fragment = lit "#fragonly" :=
  ParseDID_fragment_only (lit "#fragonly") (by decide)

/-! ## Key material -/

theorem Sha256.sum_length (msg : Bytes) : (Sha256.sum msg).length = 32 := by
  simp [Sha256.sum, Sha256.digest, Sha256.wordBytes]

theorem hexEncodeToString_length (src : Bytes) :
    (hexEncodeToString src).length = 2 * src.length := by
  induction src with
  | nil => rfl
  | cons v rest ih =>
    simp only [hexEncodeToString, List.length_cons, ih]
    omega

theorem hextable_digit : ∀ i, i < 16 → isLowerHexDigit (hextable.getD i 0) = true := by
  decide

theorem hexEncodeToString_digits (src : Bytes) :
    ∀ c ∈ hexEncodeToString src, isLowerHexDigit c = true := by
  induction src with
  | nil => simp [hexEncodeToString]
  | cons v rest ih =>
    intro c hc
    simp only [hexEncodeToString, List.mem_cons] at hc
    have hv : v.toNat < 256 := v.val.isLt
    rcases hc with rfl | rfl | hc
    · exact hextable_digit _ (by omega)
    · exact hextable_digit _ (by omega)
    · exact ih c hc

theorem hash_not_digit (c : UInt8) (h : isLowerHexDigit c = true) : c ≠ 35 := by
  rintro rfl
  revert h
  decide

/-- The slice `[64-40:64]` of a 64-character string is in range and takes its
last 40 characters. -/
theorem sliceStr_last40 (s : GoString) (h : s.length = 64) :
    sliceStr s (64 - 40) 64 = some (lastChars 40 s) := by
  unfold sliceStr
  rw [if_pos (by omega)]
  have ht : s.take 64 = s := List.take_of_length_le (by omega)
  rw [ht, lastChars, h]

theorem hexDigest_length (key : Key) : (hexDigest key).length = 64 := by
  rw [hexDigest, hexEncodeToString_length, Sha256.sum_length]

theorem MailioAddress_eq (k : MailioKey) (key : Key) (hk : k.MasterSignKey = some key) :
    k.MailioAddress = some (lit "0x" ++ lastChars 40 (hexDigest key)) := by
  have h := sliceStr_last40 (hexDigest key) (hexDigest_length key)
  unfold hexDigest at h
  simp only [MailioKey.MailioAddress, hk, h]
  rfl

theorem lastChars_length (key : Key) : (lastChars 40 (hexDigest key)).length = 40 := by
  simp [lastChars, hexDigest_length]

theorem lastChars_digits (key : Key) :
    ∀ c ∈ lastChars 40 (hexDigest key), isLowerHexDigit c = true := fun c hc =>
  hexEncodeToString_digits _ c (List.mem_of_mem_drop hc)

theorem address_no_hash (key : Key) :
    (35 : UInt8) ∉ lit "0x" ++ lastChars 40 (hexDigest key) := by
  intro h
  rcases List.mem_append.mp h with h | h
  · revert h
    decide
  · exact hash_not_digit _ (lastChars_digits key _ h) rfl

theorem DIDKeyPrefix_eq : DIDKeyPrefix = lit "did:" ++ lit "mailio" ++ lit ":" := by decide

/-- The identifier `DIDFromKey` returns for key material with a master signing key. -/
theorem DIDFromKey_eq (k : MailioKey) (key : Key) (hk : k.MasterSignKey = some key) :
    k.DIDFromKey = some
      ({ raw := lit "did:mailio:" ++ (lit "0x" ++ lastChars 40 (hexDigest key))
         proto := lit "mailio"
         value := lit "0x" ++ lastChars 40 (hexDigest key)
         fragment := [] }, none) := by
  have hp := ParseDID_core (lit "mailio") (lit "0x" ++ lastChars 40 (hexDigest key))
    (by decide) (by decide) (address_no_hash key)
  rw [← DIDKeyPrefix_eq] at hp
  simp only [MailioKey.DIDFromKey, hk, MailioAddress_eq k key hk, hp]
  rfl

/-- C5: `DIDFromKey` returns an error exactly when the key material has no master
signing key; with a master signing key (any public-key bytes) it succeeds, and
the identifier has `String() = "did:mailio:" + MailioAddress()`,
`Protocol() = "mailio"`, `Value() = MailioAddress()` and an empty fragment. -/
theorem DIDFromKey_spec (k : MailioKey) :
    ((∃ d e, k.DIDFromKey = some (d, some e)) ↔ k.MasterSignKey = none) ∧
    (∀ key, k.MasterSignKey = some key →
      ∃ addr d, k.MailioAddress = some addr ∧ k.DIDFromKey = some (d, none) ∧
        d.String = lit "did:mailio:" ++ addr ∧ d.Protocol = lit "mailio" ∧
        d.Value = addr ∧ d.Fragment = []) := by
  constructor
  · cases hk : k.MasterSignKey with
    | none => simp [MailioKey.DIDFromKey, hk]
    | some key =>
      rw [DIDFromKey_eq k key hk]
      simp
  · intro key hk
    exact ⟨_, _, MailioAddress_eq k key hk, DIDFromKey_eq k key hk, rfl, rfl, rfl, rfl⟩

/-- Witness of C5: key material whose master signing key has the bytes `1 2 3`. -/
theorem DIDFromKey_spec_witness :
    ∃ addr d,
      MailioKey.MailioAddress ⟨some ⟨[1, 2, 3], KeyTypeEd25519⟩, none, [], []⟩ = some addr ∧
      MailioKey.DIDFromKey ⟨some ⟨[1, 2, 3], KeyTypeEd25519⟩, none, [], []⟩ = some (d, none) ∧
      d.String = lit "did:mailio:" ++ addr ∧ d.Protocol = lit "mailio" ∧
      d.Value = addr ∧ d.Fragment = [] :=
  (DIDFromKey_spec ⟨some ⟨[1, 2, 3], KeyTypeEd25519⟩, none, [], []⟩).2 _ rfl

/-- C6: for every key material with a master signing key, whatever its public-key
bytes, `MailioAddress()` returns (the slice is in bounds) a 42-character string
matching `^0x[0-9a-f]{40}$`: `0x` followed by the last 40 characters of the
lowercase hex SHA-256 digest of the Base64 encoding of the key. -/
theorem MailioAddress_shape (k : MailioKey) (key : Key) (hk : k.MasterSignKey = some key) :
    ∃ addr, k.MailioAddress = some addr ∧ addr.length = 42 ∧
      matchesAddressPattern addr = true ∧
      addr = lit "0x" ++ lastChars 40
        (hexEncodeToString (Sha256.sum (base64EncodeToString key.PublicKey))) ∧
      sliceStr (hexEncodeToString (Sha256.sum (base64EncodeToString key.PublicKey))) (64 - 40) 64
        ≠ none := by
  refine ⟨_, MailioAddress_eq k key hk, ?_, ?_, rfl, ?_⟩
  · have : (lit "0x").length = 2 := by decide
    rw [List.length_append, lastChars_length, this]
  · have h0x : lit "0x" = [48, 120] := by decide
    rw [h0x]
    show matchesAddressPattern (48 :: 120 :: lastChars 40 (hexDigest key)) = true
    simp only [matchesAddressPattern, lastChars_length, Bool.and_eq_true, beq_self_eq_true,
      true_and, List.all_eq_true]
    exact lastChars_digits key
  · have h := sliceStr_last40 (hexDigest key) (hexDigest_length key)
    unfold hexDigest at h
    rw [h]
    simp

/-- Witness of C6: the master signing key with the bytes `1 2 3`. -/
theorem MailioAddress_shape_witness :
    ∃ addr, MailioKey.MailioAddress ⟨some ⟨[1, 2, 3], KeyTypeEd25519⟩, none, [], []⟩ = some addr ∧
      addr.length = 42 ∧ matchesAddressPattern addr = true ∧
      addr = lit "0x" ++ lastChars 40
        (hexEncodeToString (Sha256.sum (base64EncodeToString [1, 2, 3]))) ∧
      sliceStr (hexEncodeToString (Sha256.sum (base64EncodeToString [1, 2, 3]))) (64 - 40) 64
        ≠ none :=
  MailioAddress_shape ⟨some ⟨[1, 2, 3], KeyTypeEd25519⟩, none, [], []⟩ ⟨[1, 2, 3], KeyTypeEd25519⟩
    rfl

/-! ## The document builder and the resolver -/

/-- The operator's key material built inside `NewMailioDIDDocument`. -/
theorem operator_DIDFromKey (mailioPublicKey : Bytes) :
    ∃ mailioDid, MailioKey.DIDFromKey
      { MasterSignKey := some { Typ := KeyTypeEd25519, PublicKey := mailioPublicKey }
        MasterAgreementKey := none
        VerificationKeys := []
        AuthenticationKeys := [] } = some (mailioDid, none) :=
  ⟨_, DIDFromKey_eq _ _ rfl⟩

/-- What a returned document is made of: every step of the builder succeeded,
and the document is assembled from the results of the steps. -/
theorem NewMailioDIDDocument_inv {FromRaw : FromRawFn} {mk : MailioKey} {mailioPublicKey : Bytes}
    {auth msg : GoString} {doc : Document}
    (h : NewMailioDIDDocument FromRaw mk mailioPublicKey auth msg = some (some doc, none)) :
    ∃ key did mailioDid vms0 vms auths,
      mk.MasterSignKey = some key ∧
      mk.DIDFromKey = some (did, none) ∧
      masterVerificationMethod FromRaw did mk = LoopResult.done vms0 ∧
      verificationKeysLoop FromRaw did 0 mk.VerificationKeys vms0 = LoopResult.done vms ∧
      authenticationKeysLoop FromRaw did mk.AuthenticationKeys
        [AuthEntry.str (did.String ++ lit "#master")] = LoopResult.done auths ∧
      doc.ID = did ∧ doc.VerificationMethod = vms ∧ doc.Authentication = auths ∧
      doc.KeyAgreement = keyAgreementsOf did mk ∧
      doc.Service =
        [ { ID := mailioDid.String ++ lit "#auth"
            Typ := AuthenticationDIDType
            ServiceEndpoint := auth ++ lit "/" ++ did.Value
            Accept := []
            RoutingKeys := [] },
          { ID := mailioDid.String ++ lit "#didcomm"
            Typ := MessagingDIDType
            ServiceEndpoint := msg ++ lit "/" ++ did.Value
            Accept := [lit "didcomm/v2", lit "didcomm/aip2;env=rfc587"]
            RoutingKeys := [] } ] ∧
      MailioKey.DIDFromKey
        { MasterSignKey := some { Typ := KeyTypeEd25519, PublicKey := mailioPublicKey }
          MasterAgreementKey := none
          VerificationKeys := []
          AuthenticationKeys := [] } = some (mailioDid, none) := by
  cases hk : mk.MasterSignKey with
  | none =>
    have hd : mk.DIDFromKey = some (DID.zero, some Error.masterKeyRequired) := by
      simp [MailioKey.DIDFromKey, hk]
    simp [NewMailioDIDDocument, hd] at h
  | some key =>
    obtain ⟨did, hd⟩ : ∃ did, mk.DIDFromKey = some (did, none) := ⟨_, DIDFromKey_eq mk key hk⟩
    obtain ⟨mailioDid, hm⟩ := operator_DIDFromKey mailioPublicKey
    simp only [NewMailioDIDDocument, hd, hm] at h
    cases h0 : masterVerificationMethod FromRaw did mk with
    | panic => simp [h0] at h
    | failed e => simp [h0] at h
    | done vms0 =>
      simp only [h0] at h
      cases h1 : verificationKeysLoop FromRaw did 0 mk.VerificationKeys vms0 with
      | panic => simp [h1] at h
      | failed e => simp [h1] at h
      | done vms =>
        simp only [h1] at h
        cases h2 : authenticationKeysLoop FromRaw did mk.AuthenticationKeys
            [AuthEntry.str (did.String ++ lit "#master")] with
        | panic => simp [h2] at h
        | failed e => simp [h2] at h
        | done auths =>
          simp only [List.nil_append, h2, Option.some.injEq, Prod.mk.injEq, and_true] at h
          subst h
          exact ⟨key, did, mailioDid, vms0, vms, auths, rfl, hd, h0, h1, h2, rfl, rfl, rfl, rfl,
            by simp, hm⟩

theorem verificationKeysLoop_extends (FromRaw : FromRawFn) (did : DID) (ks : List (Option Key)) :
    ∀ (i : Nat) (acc xs : List VerificationMethod),
      verificationKeysLoop FromRaw did i ks acc = LoopResult.done xs → ∃ ys, xs = acc ++ ys := by
  induction ks with
  | nil =>
    intro i acc xs h
    simp only [verificationKeysLoop, LoopResult.done.injEq] at h
    exact ⟨[], by simp [h]⟩
  | cons k rest ih =>
    intro i acc xs h
    cases k with
    | none => simp [verificationKeysLoop] at h
    | some vk =>
      rcases hf : FromRaw vk.PublicKey with ⟨_ | rawKey, _ | e⟩
      · simp [verificationKeysLoop, hf] at h
      · simp [verificationKeysLoop, hf] at h
      · simp only [verificationKeysLoop, hf] at h
        obtain ⟨ys, hys⟩ := ih _ _ _ h
        exact ⟨_ :: ys, by rw [hys, List.append_assoc]; rfl⟩
      · simp [verificationKeysLoop, hf] at h

/-- The master entry of a document built from key material with a master key. -/
theorem masterVerificationMethod_done {FromRaw : FromRawFn} {did : DID} {mk : MailioKey}
    {key : Key} {vms0 : List VerificationMethod} (hk : mk.MasterSignKey = some key)
    (h : masterVerificationMethod FromRaw did mk = LoopResult.done vms0) :
    ∃ rawKey, FromRaw key.PublicKey = (some rawKey, none) ∧
      vms0 = [{ ID := did.String ++ lit "#master", Typ := PublicKeyJwkType,
                Controller := did.String, PublicKeyJwk := some { Key := some rawKey } }] := by
  rcases hf : FromRaw key.PublicKey with ⟨_ | rawKey, _ | e⟩
  · simp [masterVerificationMethod, hk, hf] at h
  · simp [masterVerificationMethod, hk, hf] at h
  · simp only [masterVerificationMethod, hk, hf, List.nil_append, LoopResult.done.injEq] at h
    exact ⟨rawKey, rfl, h.symm⟩
  · simp [masterVerificationMethod, hk, hf] at h

/-- Decoding a verification method whose key object round-trips the bytes `b`. -/
theorem GetPublicKey_of_roundtrip (vm : VerificationMethod) (jwkKey : JwkKey) (b : Bytes)
    (hvm : vm.PublicKeyJwk = some { Key := some jwkKey }) (ht : jwkKey.KeyType = jwaOKP)
    (hr : jwkKey.Raw = (some (RawKey.ed25519PublicKey b), none)) :
    vm.GetPublicKey = some (some b, none) := by
  simp [VerificationMethod.GetPublicKey, hvm, ht, PublicKeyJwk.GetRawKey, hr]

/-- A document is built from key material with a master signing key and no
auxiliary keys when the key-object encoder is `jwkFromRaw`. -/
theorem NewMailioDIDDocument_builds (key : Key) (agreement : Option Key) (mailioPublicKey : Bytes)
    (auth msg : GoString) :
    ∃ doc, NewMailioDIDDocument jwkFromRaw
      { MasterSignKey := some key, MasterAgreementKey := agreement, VerificationKeys := [],
        AuthenticationKeys := [] } mailioPublicKey auth msg = some (some doc, none) := by
  obtain ⟨did, hd⟩ : ∃ did, MailioKey.DIDFromKey
      { MasterSignKey := some key, MasterAgreementKey := agreement, VerificationKeys := [],
        AuthenticationKeys := [] } = some (did, none) := ⟨_, DIDFromKey_eq _ key rfl⟩
  obtain ⟨mailioDid, hm⟩ := operator_DIDFromKey mailioPublicKey
  simp [NewMailioDIDDocument, hd, hm, masterVerificationMethod, jwkFromRaw, verificationKeysLoop,
    authenticationKeysLoop]

theorem jwkFromRaw_roundTrips : CodecRoundTrips jwkFromRaw := by
  intro b key h
  simp only [jwkFromRaw, Prod.mk.injEq, Option.some.injEq, and_true] at h
  subst h
  exact ⟨rfl, rfl⟩

/-- C7: for all key material with a master signing key from which
`NewMailioDIDDocument` builds a document, `GetVerificationPublicKey(subjectDID +
"#master")` on that document succeeds and returns the bytes of the original
master signing public key, assuming the key-object codec round-trips a key it
encoded. -/
theorem GetVerificationPublicKey_master (FromRaw : FromRawFn) (hF : CodecRoundTrips FromRaw)
    (mk : MailioKey) (mailioPublicKey : Bytes) (auth msg : GoString) (doc : Document) (key : Key)
    (hk : mk.MasterSignKey = some key)
    (h : NewMailioDIDDocument FromRaw mk mailioPublicKey auth msg = some (some doc, none)) :
    ∃ subjectDID, mk.DIDFromKey = some (subjectDID, none) ∧
      doc.GetVerificationPublicKey (subjectDID.String ++ lit "#master")
        = some (some key.PublicKey, none) := by
  obtain ⟨key', did, mailioDid, vms0, vms, auths, hk', hd, h0, h1, -, -, hvm, -⟩ :=
    NewMailioDIDDocument_inv h
  obtain ⟨rawKey, hf, hv0⟩ := masterVerificationMethod_done hk h0
  obtain ⟨ys, hys⟩ := verificationKeysLoop_extends _ _ _ _ _ _ h1
  obtain ⟨ht, hr⟩ := hF _ _ hf
  refine ⟨did, hd, ?_⟩
  rw [Document.GetVerificationPublicKey, hvm, hys, hv0]
  simp only [List.singleton_append, getVerificationLoop, true_or, if_true]
  exact GetPublicKey_of_roundtrip _ rawKey _ rfl ht hr

/-- Witness of C7: the master signing key with the bytes `1 2 3`, no other keys,
and the round-tripping encoder `jwkFromRaw`. -/
theorem GetVerificationPublicKey_master_witness :
    ∃ doc subjectDID,
      NewMailioDIDDocument jwkFromRaw
        { MasterSignKey := some ⟨[1, 2, 3], KeyTypeEd25519⟩, MasterAgreementKey := none,
          VerificationKeys := [], AuthenticationKeys := [] } [4, 5] (lit "a") (lit "b")
        = some (some doc, none) ∧
      MailioKey.DIDFromKey
        { MasterSignKey := some ⟨[1, 2, 3], KeyTypeEd25519⟩, MasterAgreementKey := none,
          VerificationKeys := [], AuthenticationKeys := [] } = some (subjectDID, none) ∧
      doc.GetVerificationPublicKey (subjectDID.String ++ lit "#master")
        = some (some [1, 2, 3], none) := by
  obtain ⟨doc, hdoc⟩ := NewMailioDIDDocument_builds ⟨[1, 2, 3], KeyTypeEd25519⟩ none [4, 5]
    (lit "a") (lit "b")
  obtain ⟨subjectDID, hs, hg⟩ := GetVerificationPublicKey_master jwkFromRaw jwkFromRaw_roundTrips
    _ [4, 5] (lit "a") (lit "b") doc ⟨[1, 2, 3], KeyTypeEd25519⟩ rfl hdoc
  exact ⟨doc, subjectDID, hdoc, hs, hg⟩

/-! ## Base58 -/

theorem toBase_eq_digits (b : Nat) (hb : 1 < b) :
    ∀ fuel n, n ≤ fuel → toBase b fuel n = Nat.digits b n := by
  intro fuel
  induction fuel with
  | zero =>
    intro n hn
    have : n = 0 := by omega
    subst this
    simp [toBase]
  | succ f ih =>
    intro n hn
    by_cases h0 : n = 0
    · subst h0
      simp [toBase]
    · have hpos : 0 < n := Nat.pos_of_ne_zero h0
      have hdiv : n / b ≤ f := by
        have : n / b < n := Nat.div_lt_self hpos hb
        omega
      simp only [toBase, h0, if_false]
      rw [ih _ hdiv, Nat.digits_def' hb hpos]

theorem foldl_base_append (B : Nat) (l : List Nat) (d : Nat) (a : Nat) :
    (l ++ [d]).foldl (fun acc d => acc * B + d) a = (l.foldl (fun acc d => acc * B + d) a) * B + d := by
  simp [List.foldl_append]

theorem foldl_base_eq_ofDigits (B : Nat) (r : List Nat) :
    r.reverse.foldl (fun acc d => acc * B + d) 0 = Nat.ofDigits B r := by
  induction r with
  | nil => rfl
  | cons d r ih =>
    rw [List.reverse_cons, foldl_base_append, ih, Nat.ofDigits_cons]
    ring

theorem foldl_base_zeros (B : Nat) (z : Nat) :
    (List.replicate z 0).foldl (fun acc d => acc * B + d) 0 = 0 := by
  induction z with
  | zero => rfl
  | succ z ih => simp [List.replicate_succ, ih]


theorem leadingZeros_split (bin : Bytes) :
    ∃ rest, bin = List.replicate (bin.takeWhile (fun b => b == 0)).length 0 ++ rest ∧
      rest.head? ≠ some 0 := by
  induction bin with
  | nil => exact ⟨[], rfl, by simp⟩
  | cons b t ih =>
    by_cases hb : b = 0
    · subst hb
      obtain ⟨rest, h1, h2⟩ := ih
      refine ⟨rest, ?_, h2⟩
      have : ((0 : UInt8) :: t).takeWhile (fun b => b == 0) = 0 :: t.takeWhile (fun b => b == 0) := by
        simp [List.takeWhile_cons]
      rw [this, List.length_cons, List.replicate_succ, List.cons_append, ← h1]
    · refine ⟨b :: t, ?_, ?_⟩
      · have : (b :: t).takeWhile (fun b => b == 0) = [] := by
          simp [List.takeWhile_cons, hb]
        rw [this]
        rfl
      · simpa using hb

theorem takeWhile_replicate_append (c : UInt8) (z : Nat) (s : GoString) (hs : s.head? ≠ some c) :
    (List.replicate z c ++ s).takeWhile (fun x => x == c) = List.replicate z c := by
  induction z with
  | zero =>
    cases s with
    | nil => rfl
    | cons x t =>
      have hx : ¬ x = c := by simpa using hs
      simp [List.takeWhile_cons, hx]
  | succ z ih => simp [List.replicate_succ, List.takeWhile_cons, ih]

theorem bytesToNat_eq (bs : Bytes) :
    bytesToNat bs = Nat.ofDigits 256 (bs.map UInt8.toNat).reverse := by
  rw [← foldl_base_eq_ofDigits, List.reverse_reverse, List.foldl_map]
  rfl

theorem bytesToNat_zeros_append (z : Nat) (rest : Bytes) :
    bytesToNat (List.replicate z 0 ++ rest) = bytesToNat rest := by
  induction z with
  | zero => rfl
  | succ z ih =>
    rw [List.replicate_succ, List.cons_append]
    unfold bytesToNat at ih ⊢
    rw [List.foldl_cons]
    exact ih

theorem UInt8_ofNat_toNat (b : UInt8) : UInt8.ofNat b.toNat = b := by
  cases b with
  | mk v =>
    apply UInt8.eq_of_val_eq
    simp [UInt8.ofNat, UInt8.toNat, Fin.ofNat]


theorem toNat_ne_zero_of_head (rest : Bytes) (h : rest.head? ≠ some 0) (hne : rest ≠ []) :
    ((rest.map UInt8.toNat).reverse).getLast (by simpa using hne) ≠ 0 := by
  cases rest with
  | nil => exact absurd rfl hne
  | cons b t =>
    have hb : ¬ b = 0 := by simpa using h
    simp only [List.map_cons, List.reverse_cons]
    rw [List.getLast_append_singleton]
    intro h0
    apply hb
    rw [← UInt8_ofNat_toNat b, h0]
    rfl

/-- The base-256 digits of the number a byte sequence without leading zero
denotes are its bytes. -/
theorem toBase_bytesToNat (rest : Bytes) (h : rest.head? ≠ some 0) :
    ((toBase 256 (bytesToNat rest) (bytesToNat rest)).reverse).map UInt8.ofNat = rest := by
  rw [toBase_eq_digits 256 (by decide) _ _ (le_refl _), bytesToNat_eq,
    Nat.digits_ofDigits 256 (by decide)]
  · rw [List.reverse_reverse, List.map_map]
    conv_rhs => rw [← List.map_id rest]
    apply List.map_congr_left
    intro b _
    exact UInt8_ofNat_toNat b
  · intro l hl
    simp only [List.mem_reverse, List.mem_map] at hl
    obtain ⟨b, -, rfl⟩ := hl
    exact b.val.isLt
  · intro hne
    have hr : rest ≠ [] := by
      intro e
      apply hne
      simp [e]
    exact toNat_ne_zero_of_head rest h hr

theorem b58Value_alphabet : ∀ d, d < 58 → b58Value (b58Alphabet.getD d 0) = some d := by
  decide

theorem b58Alphabet_one : ∀ d, d < 58 → b58Alphabet.getD d 0 = 49 → d = 0 := by
  decide

theorem b58Values_encoded (z : Nat) (ds : List Nat) (hds : ∀ d ∈ ds, d < 58) :
    b58Values (List.replicate z 49 ++ ds.map (fun d => b58Alphabet.getD d 0))
      = some (List.replicate z 0 ++ ds) := by
  induction z with
  | zero =>
    induction ds with
    | nil => rfl
    | cons d t ih =>
      have hd := b58Value_alphabet d (hds d (List.mem_cons_self _ _))
      have ht := ih (fun x hx => hds x (List.mem_cons_of_mem _ hx))
      simp only [List.replicate_zero, List.nil_append, List.map_cons] at ht ⊢
      rw [b58Values, hd, ht]
  | succ z ih =>
    have h1 : b58Value 49 = some 0 := by decide
    simp only [List.replicate_succ, List.cons_append]
    rw [b58Values, h1, ih]


theorem bytesToNat_ne_zero (rest : Bytes) (h : rest.head? ≠ some 0) (hne : rest ≠ []) :
    bytesToNat rest ≠ 0 := by
  intro h0
  have := toBase_bytesToNat rest h
  rw [h0] at this
  exact hne this.symm

theorem encoded_tail_head (n : Nat) :
    (((Nat.digits 58 n).reverse).map (fun d => b58Alphabet.getD d 0)).head? ≠ some 49 := by
  by_cases h0 : n = 0
  · subst h0
    simp
  · have hne : Nat.digits 58 n ≠ [] := Nat.digits_ne_nil_iff_ne_zero.mpr h0
    have hl := Nat.getLast_digit_ne_zero 58 h0
    have hlt : (Nat.digits 58 n).getLast hne < 58 :=
      Nat.digits_lt_base (by decide) (List.getLast_mem hne)
    rw [List.head?_map, List.head?_reverse, List.getLast?_eq_getLast _ hne]
    intro h
    simp only [Option.map_some', Option.some.injEq] at h
    exact hl (b58Alphabet_one _ hlt h)

/-- Decoding undoes encoding on every non-empty byte sequence, whose encoding is
not the empty string. -/
theorem base58_roundtrip (bin : Bytes) (hne : bin ≠ []) :
    base58Encode bin ≠ [] ∧ base58Decode (base58Encode bin) = (bin, none) := by
  obtain ⟨rest, hsplit, hhead⟩ := leadingZeros_split bin
  generalize hz : (bin.takeWhile (fun b => b == 0)).length = z at hsplit
  have hn : bytesToNat bin = bytesToNat rest := by
    rw [hsplit, bytesToNat_zeros_append]
  have hdig : toBase 58 (bytesToNat rest) (bytesToNat rest) = Nat.digits 58 (bytesToNat rest) :=
    toBase_eq_digits 58 (by decide) _ _ le_rfl
  have henc : base58Encode bin = List.replicate z 49 ++
      ((Nat.digits 58 (bytesToNat rest)).reverse).map (fun d => b58Alphabet.getD d 0) := by
    unfold base58Encode
    simp only [hz, hn, hdig]
  have hnonempty : base58Encode bin ≠ [] := by
    rw [henc]
    intro he
    have hz0 : z = 0 := by
      cases z with
      | zero => rfl
      | succ k => simp [List.replicate_succ] at he
    subst hz0
    have hr : rest ≠ [] := by
      intro e
      apply hne
      rw [hsplit, e]
      rfl
    have hn0 := bytesToNat_ne_zero rest hhead hr
    have hd : Nat.digits 58 (bytesToNat rest) ≠ [] := Nat.digits_ne_nil_iff_ne_zero.mpr hn0
    simp at he
    exact hd he
  refine ⟨hnonempty, ?_⟩
  have hvals := b58Values_encoded z ((Nat.digits 58 (bytesToNat rest)).reverse)
    (fun d hd => Nat.digits_lt_base (by decide) (List.mem_reverse.mp hd))
  have htake := takeWhile_replicate_append 49 z _ (encoded_tail_head (bytesToNat rest))
  have hfold : (List.replicate z 0 ++ (Nat.digits 58 (bytesToNat rest)).reverse).foldl
      (fun acc d => acc * 58 + d) 0 = bytesToNat rest := by
    rw [List.foldl_append, foldl_base_zeros, foldl_base_eq_ofDigits, Nat.ofDigits_digits]
  unfold base58Decode
  rw [if_neg hnonempty, henc, hvals]
  simp only [htake, hfold, List.length_replicate]
  rw [toBase_bytesToNat rest hhead, ← hsplit]


/-! ## Key agreement -/

/-- The key-agreement list of a built document. -/
theorem keyAgreementsOf_some (did : DID) (mk : MailioKey) (mak : Key)
    (hk : mk.MasterAgreementKey = some mak) :
    keyAgreementsOf did mk =
      [{ ID := did.String, Typ := KeyTypeX25519KeyAgreement, Controller := did.String,
         PublicKeyMultibase := base58Encode mak.PublicKey, PublicKeyJwk := none }] := by
  simp [keyAgreementsOf, hk]

/-- C8 as stated fails: with a master agreement key whose bytes are empty, the
document is built, its key-agreement entry carries the empty Base58 string, and
`GetPublicKey` on `doc.KeyAgreement[0]` returns the error "no public key
specified in keyAgreement" and no key. -/
theorem KeyAgreement_GetPublicKey_empty_key :
    ∃ doc ka,
      NewMailioDIDDocument jwkFromRaw
        { MasterSignKey := some ⟨[1, 2, 3], KeyTypeEd25519⟩
          MasterAgreementKey := some ⟨[], KeyTypeX25519KeyAgreement⟩
          VerificationKeys := [], AuthenticationKeys := [] } [4, 5] (lit "a") (lit "b")
        = some (some doc, none) ∧
      doc.KeyAgreement[0]? = some ka ∧
      ka.GetPublicKey = (none, some Error.noPublicKeyInKeyAgreement) := by
  obtain ⟨doc, hdoc⟩ := NewMailioDIDDocument_builds ⟨[1, 2, 3], KeyTypeEd25519⟩
    (some ⟨[], KeyTypeX25519KeyAgreement⟩) [4, 5] (lit "a") (lit "b")
  obtain ⟨key, did, mailioDid, vms0, vms, auths, -, -, -, -, -, -, -, -, hka, -⟩ :=
    NewMailioDIDDocument_inv hdoc
  rw [keyAgreementsOf_some did _ ⟨[], KeyTypeX25519KeyAgreement⟩ rfl] at hka
  refine ⟨doc, { ID := did.String, Typ := KeyTypeX25519KeyAgreement, Controller := did.String,
                 PublicKeyMultibase := base58Encode [], PublicKeyJwk := none },
    hdoc, by rw [hka]; rfl, ?_⟩
  rfl

/-- C8, amended: if a master agreement key with at least one byte is set in the
key material, then for the document built by `NewMailioDIDDocument`,
`GetPublicKey` on `doc.KeyAgreement[0]` succeeds and returns the bytes of the
original agreement public key. -/
theorem KeyAgreement_GetPublicKey_roundtrip (FromRaw : FromRawFn) (mk : MailioKey)
    (mailioPublicKey : Bytes) (auth msg : GoString) (doc : Document) (mak : Key)
    (hk : mk.MasterAgreementKey = some mak) (hne : mak.PublicKey ≠ [])
    (h : NewMailioDIDDocument FromRaw mk mailioPublicKey auth msg = some (some doc, none)) :
    ∃ ka, doc.KeyAgreement[0]? = some ka ∧ ka.GetPublicKey = (some mak.PublicKey, none) := by
  obtain ⟨key, did, mailioDid, vms0, vms, auths, -, -, -, -, -, -, -, -, hka, -⟩ :=
    NewMailioDIDDocument_inv h
  rw [keyAgreementsOf_some did mk mak hk] at hka
  obtain ⟨hnonempty, hdec⟩ := base58_roundtrip mak.PublicKey hne
  refine ⟨{ ID := did.String, Typ := KeyTypeX25519KeyAgreement, Controller := did.String,
            PublicKeyMultibase := base58Encode mak.PublicKey, PublicKeyJwk := none },
    by rw [hka]; rfl, ?_⟩
  simp only [KeyAgreement.GetPublicKey]
  rw [lit_empty, if_neg hnonempty, hdec]

/-- Witness of the amended C8: the agreement key with the bytes `0 5`. -/
theorem KeyAgreement_GetPublicKey_roundtrip_witness :
    ∃ doc ka,
      NewMailioDIDDocument jwkFromRaw
        { MasterSignKey := some ⟨[1, 2, 3], KeyTypeEd25519⟩
          MasterAgreementKey := some ⟨[0, 5], KeyTypeX25519KeyAgreement⟩
          VerificationKeys := [], AuthenticationKeys := [] } [4, 5] (lit "a") (lit "b")
        = some (some doc, none) ∧
      doc.KeyAgreement[0]? = some ka ∧ ka.GetPublicKey = (some [0, 5], none) := by
  obtain ⟨doc, hdoc⟩ := NewMailioDIDDocument_builds ⟨[1, 2, 3], KeyTypeEd25519⟩
    (some ⟨[0, 5], KeyTypeX25519KeyAgreement⟩) [4, 5] (lit "a") (lit "b")
  obtain ⟨ka, h1, h2⟩ := KeyAgreement_GetPublicKey_roundtrip jwkFromRaw _ [4, 5] (lit "a")
    (lit "b") doc ⟨[0, 5], KeyTypeX25519KeyAgreement⟩ rfl (by decide) hdoc
  exact ⟨doc, ka, hdoc, h1, h2⟩

/-! ## The credential proof -/

/-- A credential that `CreateProof` sealed verifies under the matching key. -/
theorem VerifyProof_of_CreateProof (L : Libs) (privateKey publicKey : Bytes) (now : Time)
    (vc : VerifiableCredential)
    (hsig : SignatureRoundTrips L privateKey publicKey (L.cborMarshal vc).1)
    (hcbor : CborRecoversIssuer L vc)
    (h : (vc.CreateProof L now privateKey).2 = none) :
    (vc.CreateProof L now privateKey).1.VerifyProof L publicKey = some (true, none) := by
  rcases hm : L.cborMarshal vc with ⟨cbor, _ | e⟩
  · rw [hm] at hsig
    rcases hs : L.jwsSign cbor privateKey with ⟨signature, _ | e⟩
    · obtain ⟨hne, hv⟩ := hsig signature hs
      obtain ⟨vc', hu, hi⟩ := hcbor cbor hm
      simp only [VerifiableCredential.CreateProof, hm, hs, VerifiableCredential.VerifyProof]
      rw [lit_empty, if_neg hne]
      simp only [hv, hu]
      rw [if_neg (not_not.mpr hi)]
    · simp [VerifiableCredential.CreateProof, hm, hs] at h
  · simp [VerifiableCredential.CreateProof, hm] at h

/-- C9: for every issuer string and every key pair, a credential made by
`NewVerifiableCredential(issuer)`, filled by the caller with an id, a subject and
a status, then sealed with `CreateProof(privateKey)`, verifies:
`VerifyProof(publicKey)` returns `true` and no error, without a panic. The two
assumptions are made of this credential only: verification under the public key
accepts what the private key signed from the encoding of this credential and
returns the signed payload, and the binary decoding of the encoding of this
credential recovers the issuer that was encoded. -/
theorem credential_proof_lifecycle (L : Libs) (privateKey publicKey : Bytes)
    (issuer : GoString) (created sealed : Time) (id : GoString) (subject : CredentialSubject)
    (status : Option CredentialStatus)
    (hsig : SignatureRoundTrips L privateKey publicKey
      (L.cborMarshal
        { NewVerifiableCredential created issuer with
          ID := id, CredentialSubject := subject, CredentialStatus := status }).1)
    (hcbor : CborRecoversIssuer L
      { NewVerifiableCredential created issuer with
        ID := id, CredentialSubject := subject, CredentialStatus := status })
    (h : (VerifiableCredential.CreateProof L sealed
      { NewVerifiableCredential created issuer with
        ID := id, CredentialSubject := subject, CredentialStatus := status } privateKey).2
      = none) :
    (VerifiableCredential.CreateProof L sealed
      { NewVerifiableCredential created issuer with
        ID := id, CredentialSubject := subject, CredentialStatus := status }
      privateKey).1.VerifyProof L publicKey = some (true, none) :=
  VerifyProof_of_CreateProof L privateKey publicKey sealed _ hsig hcbor h

/-- In `toyLibs`, a public key of 32 bytes accepts what a private key with the
same first byte signed. -/
theorem toyLibs_signature (privateKey publicKey payload : Bytes)
    (hl : publicKey.length = ed25519PublicKeySize)
    (hh : privateKey.headD 0 = publicKey.headD 0) :
    SignatureRoundTrips toyLibs privateKey publicKey payload := by
  intro signature h
  simp only [toyLibs, Prod.mk.injEq, and_true] at h
  subst h
  refine ⟨by simp, ?_⟩
  show (if publicKey.length ≠ ed25519PublicKeySize then none
    else if privateKey.headD 0 = publicKey.headD 0 then some (payload, none)
    else some ([], some (Error.external 4))) = some (payload, none)
  rw [if_neg (not_not.mpr hl), if_pos hh]

/-- In `toyLibs`, decoding recovers the issuer of every credential. -/
theorem toyLibs_cbor (vc : VerifiableCredential) : CborRecoversIssuer toyLibs vc := by
  intro b h
  simp only [toyLibs, Prod.mk.injEq, and_true] at h
  subst h
  exact ⟨_, rfl, rfl⟩

/-- Witness of C9: the issuer `did:mailio:0xabc`, the capabilities `toyLibs` and
the key pair `toyPrivateKey` / `toyPublicKey`. -/
theorem credential_proof_lifecycle_witness :
    (VerifiableCredential.CreateProof toyLibs ⟨2⟩
      { NewVerifiableCredential ⟨1⟩ (lit "did:mailio:0xabc") with
        ID := lit "http://example.edu/credentials/3732"
        CredentialSubject := ⟨lit "did:mailio:0xdef", [], none⟩
        CredentialStatus := none } toyPrivateKey).2 = none ∧
    (VerifiableCredential.CreateProof toyLibs ⟨2⟩
      { NewVerifiableCredential ⟨1⟩ (lit "did:mailio:0xabc") with
        ID := lit "http://example.edu/credentials/3732"
        CredentialSubject := ⟨lit "did:mailio:0xdef", [], none⟩
        CredentialStatus := none } toyPrivateKey).1.VerifyProof toyLibs toyPublicKey
      = some (true, none) :=
  ⟨rfl, credential_proof_lifecycle toyLibs toyPrivateKey toyPublicKey
    (lit "did:mailio:0xabc") ⟨1⟩ ⟨2⟩ (lit "http://example.edu/credentials/3732")
    ⟨lit "did:mailio:0xdef", [], none⟩ none
    (toyLibs_signature toyPrivateKey toyPublicKey _ (by decide) (by decide))
    (toyLibs_cbor _) rfl⟩

/-- C10 as stated fails: a credential of the issuer `did:mailio:0xabc` sealed
with `toyPrivateKey` carries a proof with a non-empty signature payload; under
the public key of one byte `8` the payload does not verify, since the
verification panics on a key whose length is not 32, and `VerifyProof` panics
with it: it returns neither `false` nor an error. -/
theorem VerifyProof_short_key_panics :
    (VerifiableCredential.CreateProof toyLibs ⟨2⟩
      (NewVerifiableCredential ⟨1⟩ (lit "did:mailio:0xabc")) toyPrivateKey).1.Proof.map Proof.Jws
      = some (7 :: lit "did:mailio:0xabc") ∧
    (7 :: lit "did:mailio:0xabc") ≠ lit "" ∧
    toyLibs.jwsVerify (7 :: lit "did:mailio:0xabc") [8] = none ∧
    VerifiableCredential.VerifyProof toyLibs
      (VerifiableCredential.CreateProof toyLibs ⟨2⟩
        (NewVerifiableCredential ⟨1⟩ (lit "did:mailio:0xabc")) toyPrivateKey).1 [8] = none := by
  decide

/-- C10, amended: for every credential carrying a proof and every public key
under which the verification of the proof's signature payload returns an error,
`VerifyProof` returns `false` together with an error (the error of the
verification when the payload is not empty); `VerifyProof` returns `true` only
when the signature verified under the supplied key and the issuer recovered from
the signed payload equals the credential's issuer; and `VerifyProof` panics
exactly when the verification of a non-empty signature payload panics. -/
theorem VerifyProof_sound (L : Libs) (vc : VerifiableCredential) (publicKey : Bytes) :
    (∀ proof payload e, vc.Proof = some proof →
      L.jwsVerify proof.Jws publicKey = some (payload, some e) →
      ∃ e', vc.VerifyProof L publicKey = some (false, some e') ∧
        (proof.Jws ≠ lit "" → e' = e)) ∧
    (∀ r, vc.VerifyProof L publicKey = some r → r.1 = true →
      ∃ proof payload recovered, vc.Proof = some proof ∧
        L.jwsVerify proof.Jws publicKey = some (payload, none) ∧
        L.cborUnmarshal payload = (recovered, none) ∧ recovered.Issuer = vc.Issuer) ∧
    (vc.VerifyProof L publicKey = none ↔
      ∃ proof, vc.Proof = some proof ∧ proof.Jws ≠ lit "" ∧
        L.jwsVerify proof.Jws publicKey = none) := by
  refine ⟨?_, ?_, ?_⟩
  rotate_left 2
  · cases hp : vc.Proof with
    | none => simp [VerifiableCredential.VerifyProof, hp]
    | some proof =>
      by_cases hj : proof.Jws = lit ""
      · simp [VerifiableCredential.VerifyProof, hp, hj]
      · rcases hver : L.jwsVerify proof.Jws publicKey with _ | ⟨payload, _ | e⟩
        · simp [VerifiableCredential.VerifyProof, hp, hj, hver]
        · rcases hu : L.cborUnmarshal payload with ⟨recovered, _ | e⟩
          · by_cases hi : recovered.Issuer = vc.Issuer
            · simp [VerifiableCredential.VerifyProof, hp, hj, hver, hu, hi]
            · simp [VerifiableCredential.VerifyProof, hp, hj, hver, hu, hi]
          · simp [VerifiableCredential.VerifyProof, hp, hj, hver, hu]
        · simp [VerifiableCredential.VerifyProof, hp, hj, hver]
  · intro proof payload e hp hv
    by_cases hj : proof.Jws = lit ""
    · exact ⟨Error.jwsIsEmpty, by simp [VerifiableCredential.VerifyProof, hp, hj],
        fun h => absurd hj h⟩
    · exact ⟨e, by simp [VerifiableCredential.VerifyProof, hp, hj, hv], fun _ => rfl⟩
  · intro r hr ht
    cases hp : vc.Proof with
    | none =>
      simp only [VerifiableCredential.VerifyProof, hp, Option.some.injEq] at hr
      subst hr
      exact absurd ht (by simp)
    | some proof =>
      by_cases hj : proof.Jws = lit ""
      · simp only [VerifiableCredential.VerifyProof, hp, hj, if_true, Option.some.injEq] at hr
        subst hr
        exact absurd ht (by simp)
      · rcases hver : L.jwsVerify proof.Jws publicKey with _ | ⟨payload, _ | e⟩
        · simp [VerifiableCredential.VerifyProof, hp, hj, hver] at hr
        · rcases hu : L.cborUnmarshal payload with ⟨recovered, _ | e⟩
          · by_cases hi : recovered.Issuer = vc.Issuer
            · exact ⟨proof, payload, recovered, rfl, hver, hu, hi⟩
            · simp only [VerifiableCredential.VerifyProof, hp, hj, hver, hu, if_false, ne_eq, hi,
                not_false_eq_true, if_true, Option.some.injEq] at hr
              subst hr
              exact absurd ht (by simp)
          · simp only [VerifiableCredential.VerifyProof, hp, hj, hver, hu, if_false,
              Option.some.injEq] at hr
            subst hr
            exact absurd ht (by simp)
        · simp only [VerifiableCredential.VerifyProof, hp, hj, hver, if_false,
            Option.some.injEq] at hr
          subst hr
          exact absurd ht (by simp)

/-- Witness of the amended C10: a proof signed under `toyPrivateKey` does not
verify under `otherPublicKey`, a key of 32 bytes: the verification returns an
error, and `VerifyProof` returns `false` and this error. -/
theorem VerifyProof_sound_witness :
    toyLibs.jwsVerify (7 :: lit "did:mailio:0xabc") otherPublicKey
      = some ([], some (Error.external 4)) ∧
    ∃ e', VerifiableCredential.VerifyProof toyLibs
        { NewVerifiableCredential ⟨1⟩ (lit "did:mailio:0xabc") with
          Proof := some ⟨KeyTypeEd25519, ⟨2⟩, lit "assertionMethod", lit "did:mailio:0xabc", [], [],
            7 :: lit "did:mailio:0xabc"⟩ } otherPublicKey = some (false, some e') ∧
      ((7 :: lit "did:mailio:0xabc") ≠ lit "" → e' = Error.external 4) :=
  ⟨by decide,
    (VerifyProof_sound toyLibs
      { NewVerifiableCredential ⟨1⟩ (lit "did:mailio:0xabc") with
        Proof := some ⟨KeyTypeEd25519, ⟨2⟩, lit "assertionMethod", lit "did:mailio:0xabc", [], [],
          7 :: lit "did:mailio:0xabc"⟩ } otherPublicKey).1
      ⟨KeyTypeEd25519, ⟨2⟩, lit "assertionMethod", lit "did:mailio:0xabc", [], [],
        7 :: lit "did:mailio:0xabc"⟩ [] (Error.external 4) rfl (by decide)⟩

/-! ## The credential proof: mismatch, preconditions, frame -/

/-- The return of `VerifyProof` on an issuer mismatch. -/
theorem VerifyProof_of_mismatch (L : Libs) (vc : VerifiableCredential) (publicKey : Bytes)
    (proof : Proof) (payload : Bytes) (recovered : VerifiableCredential)
    (hp : vc.Proof = some proof) (hj : proof.Jws ≠ lit "")
    (hv : L.jwsVerify proof.Jws publicKey = some (payload, none))
    (hu : L.cborUnmarshal payload = (recovered, none))
    (hi : recovered.Issuer ≠ vc.Issuer) :
    vc.VerifyProof L publicKey = some (false, some Error.issuerIsNotMatch) := by
  simp only [VerifiableCredential.VerifyProof, hp]
  rw [if_neg hj]
  simp only [hv, hu]
  rw [if_pos hi]

/-- C11 as stated fails: the proof of a credential issued by `did:mailio:0xdef`,
put on a credential issued by `did:mailio:0xabc`, verifies under the key and its
payload decodes, and `VerifyProof` returns `false` with the error "Issuer is not
match", not with a `nil` error. -/
theorem VerifyProof_mismatch_is_error :
    toyLibs.jwsVerify (7 :: lit "did:mailio:0xdef") toyPublicKey
      = some (lit "did:mailio:0xdef", none) ∧
    (toyLibs.cborUnmarshal (lit "did:mailio:0xdef")).2 = none ∧
    (toyLibs.cborUnmarshal (lit "did:mailio:0xdef")).1.Issuer ≠ lit "did:mailio:0xabc" ∧
    VerifiableCredential.VerifyProof toyLibs
      { NewVerifiableCredential ⟨1⟩ (lit "did:mailio:0xabc") with
        Proof := (VerifiableCredential.CreateProof toyLibs ⟨2⟩
          (NewVerifiableCredential ⟨1⟩ (lit "did:mailio:0xdef")) toyPrivateKey).1.Proof }
        toyPublicKey
      = some (false, some Error.issuerIsNotMatch) := by
  decide

/-- C11, amended: when a credential carries a proof whose signature verifies
under the supplied key and whose payload decodes, but the issuer recovered from
the payload differs from the credential's issuer, `VerifyProof` returns the
boolean `false` together with the error "Issuer is not match". -/
theorem VerifyProof_issuer_mismatch (L : Libs) (vc : VerifiableCredential) (publicKey : Bytes)
    (proof : Proof) (payload : Bytes) (recovered : VerifiableCredential)
    (hp : vc.Proof = some proof) (hj : proof.Jws ≠ lit "")
    (hv : L.jwsVerify proof.Jws publicKey = some (payload, none))
    (hu : L.cborUnmarshal payload = (recovered, none))
    (hi : recovered.Issuer ≠ vc.Issuer) :
    ∃ r, vc.VerifyProof L publicKey = some r ∧
      r.1 = false ∧ r.2 = some Error.issuerIsNotMatch :=
  ⟨_, VerifyProof_of_mismatch L vc publicKey proof payload recovered hp hj hv hu hi, rfl, rfl⟩

/-- Witness of the amended C11: the swapped proof of the counterexample. -/
theorem VerifyProof_issuer_mismatch_witness :
    ∃ r, VerifiableCredential.VerifyProof toyLibs
      { NewVerifiableCredential ⟨1⟩ (lit "did:mailio:0xabc") with
        Proof := some ⟨KeyTypeEd25519, ⟨2⟩, lit "assertionMethod", lit "did:mailio:0xdef", [], [],
          7 :: lit "did:mailio:0xdef"⟩ } toyPublicKey = some r ∧
      r.1 = false ∧ r.2 = some Error.issuerIsNotMatch :=
  VerifyProof_issuer_mismatch toyLibs _ toyPublicKey
    ⟨KeyTypeEd25519, ⟨2⟩, lit "assertionMethod", lit "did:mailio:0xdef", [], [],
      7 :: lit "did:mailio:0xdef"⟩
    (lit "did:mailio:0xdef") (NewVerifiableCredential ⟨0⟩ (lit "did:mailio:0xdef"))
    rfl (by decide) (by decide) rfl (by decide)

/-- C16: for every credential whose `Proof` is absent, and for every credential
whose `Proof` has an empty signature payload, `VerifyProof` returns `false` and
an error for every public key; the result does not depend on the libraries, so
no signature verification is attempted. -/
theorem VerifyProof_precondition (L : Libs) (vc : VerifiableCredential) (publicKey : Bytes) :
    (vc.Proof = none → vc.VerifyProof L publicKey = some (false, some Error.proofIsNil)) ∧
    (∀ proof, vc.Proof = some proof → proof.Jws = lit "" →
      vc.VerifyProof L publicKey = some (false, some Error.jwsIsEmpty)) ∧
    ((vc.Proof = none ∨ ∃ proof, vc.Proof = some proof ∧ proof.Jws = lit "") →
      ∀ L' : Libs, vc.VerifyProof L' publicKey = vc.VerifyProof L publicKey) := by
  have h1 : ∀ M : Libs, vc.Proof = none →
      vc.VerifyProof M publicKey = some (false, some Error.proofIsNil) := by
    intro M h
    simp only [VerifiableCredential.VerifyProof, h]
  have h2 : ∀ M : Libs, ∀ proof, vc.Proof = some proof → proof.Jws = lit "" →
      vc.VerifyProof M publicKey = some (false, some Error.jwsIsEmpty) := by
    intro M proof hp hj
    simp only [VerifiableCredential.VerifyProof, hp]
    rw [if_pos hj]
  refine ⟨h1 L, h2 L, ?_⟩
  rintro (h | ⟨proof, hp, hj⟩) L'
  · rw [h1 L' h, h1 L h]
  · rw [h2 L' proof hp hj, h2 L proof hp hj]

/-- Witness of C16: a fresh credential has no proof. -/
theorem VerifyProof_precondition_witness :
    VerifiableCredential.VerifyProof toyLibs (NewVerifiableCredential ⟨1⟩ (lit "did:mailio:0xabc"))
      toyPublicKey = some (false, some Error.proofIsNil) :=
  (VerifyProof_precondition toyLibs (NewVerifiableCredential ⟨1⟩ (lit "did:mailio:0xabc"))
    toyPublicKey).1 rfl

/-- The three returns of `CreateProof`. -/
theorem CreateProof_cases (L : Libs) (now : Time) (vc : VerifiableCredential)
    (privateKey : Bytes) :
    (∃ e, vc.CreateProof L now privateKey = (vc, some e)) ∨
    (∃ cbor signature, L.cborMarshal vc = (cbor, none) ∧
      L.jwsSign cbor privateKey = (signature, none) ∧
      vc.CreateProof L now privateKey =
        ({ vc with
            Proof := some
              { Typ := KeyTypeEd25519
                Created := now
                ProofPurpose := lit "assertionMethod"
                VerificationMethod := vc.Issuer
                Challenge := []
                Domain := []
                Jws := signature } }, none)) := by
  rcases hm : L.cborMarshal vc with ⟨cbor, _ | e⟩
  · rcases hs : L.jwsSign cbor privateKey with ⟨signature, _ | e⟩
    · right
      refine ⟨cbor, signature, rfl, hs, ?_⟩
      simp only [VerifiableCredential.CreateProof, hm, hs]
    · left
      refine ⟨e, ?_⟩
      simp only [VerifiableCredential.CreateProof, hm, hs]
  · left
    refine ⟨e, ?_⟩
    simp only [VerifiableCredential.CreateProof, hm]

/-- C17: when `CreateProof` succeeds, the attached proof has `VerificationMethod`
equal to the credential's issuer, `ProofPurpose` `assertionMethod` and `Type`
`Ed25519VerificationKey2020`, and every field of the credential other than
`Proof` is unchanged; when `CreateProof` fails, the credential, its `Proof`
included, is unchanged. -/
theorem CreateProof_frame (L : Libs) (now : Time) (vc : VerifiableCredential)
    (privateKey : Bytes) :
    ((vc.CreateProof L now privateKey).2 = none →
      (∃ proof, (vc.CreateProof L now privateKey).1.Proof = some proof ∧
        proof.VerificationMethod = vc.Issuer ∧ proof.ProofPurpose = lit "assertionMethod" ∧
        proof.Typ = lit "Ed25519VerificationKey2020") ∧
      (vc.CreateProof L now privateKey).1.Issuer = vc.Issuer ∧
      (vc.CreateProof L now privateKey).1.IssuanceDate = vc.IssuanceDate ∧
      (vc.CreateProof L now privateKey).1.Context = vc.Context ∧
      (vc.CreateProof L now privateKey).1.ID = vc.ID ∧
      (vc.CreateProof L now privateKey).1.Typ = vc.Typ ∧
      (vc.CreateProof L now privateKey).1.CredentialSubject = vc.CredentialSubject ∧
      (vc.CreateProof L now privateKey).1.CredentialStatus = vc.CredentialStatus) ∧
    ((vc.CreateProof L now privateKey).2 ≠ none → (vc.CreateProof L now privateKey).1 = vc) := by
  rcases CreateProof_cases L now vc privateKey with ⟨e, he⟩ | ⟨cbor, signature, -, -, hok⟩
  · rw [he]
    exact ⟨fun h => absurd h (by simp), fun _ => rfl⟩
  · rw [hok]
    exact ⟨fun _ => ⟨⟨_, rfl, rfl, rfl, rfl⟩, rfl, rfl, rfl, rfl, rfl, rfl, rfl⟩,
      fun h => absurd rfl h⟩

/-- Witness of C17: sealing a fresh credential with the capabilities `toyLibs`. -/
theorem CreateProof_frame_witness :
    (∃ proof, (VerifiableCredential.CreateProof toyLibs ⟨2⟩
        (NewVerifiableCredential ⟨1⟩ (lit "did:mailio:0xabc")) toyPrivateKey).1.Proof = some proof ∧
      proof.VerificationMethod = lit "did:mailio:0xabc" ∧
      proof.ProofPurpose = lit "assertionMethod" ∧
      proof.Typ = lit "Ed25519VerificationKey2020") ∧
    (VerifiableCredential.CreateProof toyLibs ⟨2⟩
      (NewVerifiableCredential ⟨1⟩ (lit "did:mailio:0xabc")) toyPrivateKey).1.IssuanceDate = ⟨1⟩ :=
  ⟨((CreateProof_frame toyLibs ⟨2⟩ (NewVerifiableCredential ⟨1⟩ (lit "did:mailio:0xabc"))
      toyPrivateKey).1 rfl).1,
    ((CreateProof_frame toyLibs ⟨2⟩ (NewVerifiableCredential ⟨1⟩ (lit "did:mailio:0xabc"))
      toyPrivateKey).1 rfl).2.2.1⟩

/-- C12 as stated fails: for a credential that already carries a proof, the
bytes handed to the signer contain the existing proof, so they differ from the
bytes signed for the same credential with its proof removed, and so do the two
signatures. -/
theorem CreateProof_signs_existing_proof :
    sealedCredential.Proof ≠ none ∧
    (recordLibs.cborMarshal sealedCredential).1
      ≠ (recordLibs.cborMarshal { sealedCredential with Proof := none }).1 ∧
    ((sealedCredential.CreateProof recordLibs ⟨3⟩ toyPrivateKey).1.Proof.map Proof.Jws)
      ≠ ((VerifiableCredential.CreateProof recordLibs ⟨3⟩
          { sealedCredential with Proof := none } toyPrivateKey).1.Proof.map Proof.Jws) := by
  decide!

/-- C12, amended: for every credential, the bytes `CreateProof` signs are the
serialization of the credential as it stands at the call, and the attached proof
carries the signature of these bytes; for a credential without a proof they are
the serialization of the credential excluding the `Proof` field. -/
theorem CreateProof_signs_marshalled (L : Libs) (now : Time) (vc : VerifiableCredential)
    (privateKey : Bytes) (h : (vc.CreateProof L now privateKey).2 = none) :
    ∃ cbor signature, L.cborMarshal vc = (cbor, none) ∧
      L.jwsSign cbor privateKey = (signature, none) ∧
      (vc.CreateProof L now privateKey).1.Proof.map Proof.Jws = some signature ∧
      (vc.Proof = none → L.cborMarshal { vc with Proof := none } = (cbor, none)) := by
  rcases CreateProof_cases L now vc privateKey with ⟨e, he⟩ | ⟨cbor, signature, hm, hs, hok⟩
  · rw [he] at h
    exact absurd h (by simp)
  · refine ⟨cbor, signature, hm, hs, by rw [hok]; rfl, fun hp => ?_⟩
    have hvc : { vc with Proof := none } = vc := by
      cases vc
      simp only at hp
      subst hp
      rfl
    rw [hvc, hm]

/-- Witness of the amended C12: sealing a fresh credential with `recordLibs`. -/
theorem CreateProof_signs_marshalled_witness :
    ∃ cbor signature,
      recordLibs.cborMarshal (NewVerifiableCredential ⟨1⟩ (lit "did:mailio:0xabc")) = (cbor, none) ∧
      recordLibs.jwsSign cbor toyPrivateKey = (signature, none) ∧
      (VerifiableCredential.CreateProof recordLibs ⟨2⟩
        (NewVerifiableCredential ⟨1⟩ (lit "did:mailio:0xabc")) toyPrivateKey).1.Proof.map Proof.Jws
        = some signature ∧
      ((NewVerifiableCredential ⟨1⟩ (lit "did:mailio:0xabc")).Proof = none →
        recordLibs.cborMarshal
          { NewVerifiableCredential ⟨1⟩ (lit "did:mailio:0xabc") with Proof := none }
          = (cbor, none)) :=
  CreateProof_signs_marshalled recordLibs ⟨2⟩ (NewVerifiableCredential ⟨1⟩ (lit "did:mailio:0xabc"))
    toyPrivateKey rfl

/-! ## The shape of a built document -/

/-- What the loop over the auxiliary verification keys appends: one entry per
key, in order, the entry of the key at position `j` carrying the key object of
that key and the ID `#` followed by the numeral of `i + j + 1`. -/
theorem verificationKeysLoop_done (FromRaw : FromRawFn) (did : DID) (ks : List (Option Key)) :
    ∀ (i : Nat) (acc xs : List VerificationMethod),
      verificationKeysLoop FromRaw did i ks acc = LoopResult.done xs →
      ∃ ys, xs = acc ++ ys ∧ ys.length = ks.length ∧
        ∀ j, j < ks.length → ∃ key rawKey, ks[j]? = some (some key) ∧
          FromRaw key.PublicKey = (some rawKey, none) ∧
          ys[j]? = some
            { ID := lit "#" ++ Itoa (i + j + 1), Typ := PublicKeyJwkType,
              Controller := did.String, PublicKeyJwk := some { Key := some rawKey } } := by
  induction ks with
  | nil =>
    intro i acc xs h
    simp only [verificationKeysLoop, LoopResult.done.injEq] at h
    exact ⟨[], by simp [h], rfl, fun j hj => absurd hj (by simp)⟩
  | cons k rest ih =>
    intro i acc xs h
    cases k with
    | none => simp [verificationKeysLoop] at h
    | some vk =>
      rcases hf : FromRaw vk.PublicKey with ⟨_ | rawKey, _ | e⟩
      · simp [verificationKeysLoop, hf] at h
      · simp [verificationKeysLoop, hf] at h
      · simp only [verificationKeysLoop, hf] at h
        obtain ⟨ys, hys, hlen, hall⟩ := ih _ _ _ h
        refine ⟨_ :: ys, by rw [hys, List.append_assoc]; rfl, by simp [hlen], ?_⟩
        intro j hj
        cases j with
        | zero => exact ⟨vk, rawKey, by simp, hf, by simp⟩
        | succ j =>
          obtain ⟨key, rk, h1, h2, h3⟩ := hall j (by simpa using hj)
          refine ⟨key, rk, by simpa using h1, h2, ?_⟩
          have hidx : i + 1 + j + 1 = i + (j + 1) + 1 := by omega
          rw [hidx] at h3
          simpa using h3
      · simp [verificationKeysLoop, hf] at h

/-- What the loop over the auxiliary authentication keys appends: one inline
entry per key, in order, with an empty ID. -/
theorem authenticationKeysLoop_done (FromRaw : FromRawFn) (did : DID) (ks : List (Option Key)) :
    ∀ (acc xs : List AuthEntry),
      authenticationKeysLoop FromRaw did ks acc = LoopResult.done xs →
      ∃ ys, xs = acc ++ ys ∧ ys.length = ks.length ∧
        ∀ j, j < ks.length → ∃ key rawKey, ks[j]? = some (some key) ∧
          FromRaw key.PublicKey = (some rawKey, none) ∧
          ys[j]? = some (AuthEntry.vm
            { ID := [], Typ := PublicKeyJwkType,
              Controller := did.String, PublicKeyJwk := some { Key := some rawKey } }) := by
  induction ks with
  | nil =>
    intro acc xs h
    simp only [authenticationKeysLoop, LoopResult.done.injEq] at h
    exact ⟨[], by simp [h], rfl, fun j hj => absurd hj (by simp)⟩
  | cons k rest ih =>
    intro acc xs h
    cases k with
    | none => simp [authenticationKeysLoop] at h
    | some vk =>
      rcases hf : FromRaw vk.PublicKey with ⟨_ | rawKey, _ | e⟩
      · simp [authenticationKeysLoop, hf] at h
      · simp [authenticationKeysLoop, hf] at h
      · simp only [authenticationKeysLoop, hf] at h
        obtain ⟨ys, hys, hlen, hall⟩ := ih _ _ h
        refine ⟨_ :: ys, by rw [hys, List.append_assoc]; rfl, by simp [hlen], ?_⟩
        intro j hj
        cases j with
        | zero => exact ⟨vk, rawKey, by simp, hf, by simp⟩
        | succ j =>
          obtain ⟨key, rk, h1, h2, h3⟩ := hall j (by simpa using hj)
          exact ⟨key, rk, by simpa using h1, h2, by simpa using h3⟩
      · simp [authenticationKeysLoop, hf] at h


theorem verificationKeysLoop_jwk (did : DID) (ks : List Key) :
    ∀ (i : Nat) (acc : List VerificationMethod),
      ∃ xs, verificationKeysLoop jwkFromRaw did i (ks.map some) acc = LoopResult.done xs := by
  induction ks with
  | nil => exact fun i acc => ⟨acc, rfl⟩
  | cons k rest ih =>
    intro i acc
    obtain ⟨xs, hxs⟩ := ih (i + 1)
      (acc ++ [{ ID := lit "#" ++ Itoa (i + 1), Typ := PublicKeyJwkType,
                 Controller := did.String,
                 PublicKeyJwk := some { Key := (jwkFromRaw k.PublicKey).1 } }])
    exact ⟨xs, hxs⟩

theorem authenticationKeysLoop_jwk (did : DID) (ks : List Key) :
    ∀ (acc : List AuthEntry),
      ∃ xs, authenticationKeysLoop jwkFromRaw did (ks.map some) acc = LoopResult.done xs := by
  induction ks with
  | nil => exact fun acc => ⟨acc, rfl⟩
  | cons k rest ih =>
    intro acc
    obtain ⟨xs, hxs⟩ := ih
      (acc ++ [AuthEntry.vm ⟨[], PublicKeyJwkType, did.String,
                 some { Key := (jwkFromRaw k.PublicKey).1 }⟩])
    exact ⟨xs, hxs⟩

/-- A document is built from key material with a master signing key and any
auxiliary keys (none of them `nil`) when the key-object encoder is `jwkFromRaw`. -/
theorem NewMailioDIDDocument_builds_all (key : Key) (agreement : Option Key)
    (vks aks : List Key) (mailioPublicKey : Bytes) (auth msg : GoString) :
    ∃ doc, NewMailioDIDDocument jwkFromRaw
      { MasterSignKey := some key, MasterAgreementKey := agreement,
        VerificationKeys := vks.map some, AuthenticationKeys := aks.map some }
      mailioPublicKey auth msg = some (some doc, none) := by
  obtain ⟨did, hd⟩ : ∃ did, MailioKey.DIDFromKey
      { MasterSignKey := some key, MasterAgreementKey := agreement,
        VerificationKeys := vks.map some, AuthenticationKeys := aks.map some }
      = some (did, none) := ⟨_, DIDFromKey_eq _ key rfl⟩
  obtain ⟨mailioDid, hm⟩ := operator_DIDFromKey mailioPublicKey
  obtain ⟨vms, h1⟩ := verificationKeysLoop_jwk did vks 0
    [{ ID := did.String ++ lit "#master", Typ := PublicKeyJwkType, Controller := did.String,
       PublicKeyJwk := some { Key := (jwkFromRaw key.PublicKey).1 } }]
  obtain ⟨auths, h2⟩ := authenticationKeysLoop_jwk did aks
    [AuthEntry.str (did.String ++ lit "#master")]
  have h0 : masterVerificationMethod jwkFromRaw did
      { MasterSignKey := some key, MasterAgreementKey := agreement,
        VerificationKeys := vks.map some, AuthenticationKeys := aks.map some }
      = LoopResult.done
        [{ ID := did.String ++ lit "#master", Typ := PublicKeyJwkType, Controller := did.String,
           PublicKeyJwk := some { Key := (jwkFromRaw key.PublicKey).1 } }] := rfl
  simp only [NewMailioDIDDocument, hd, hm, h0, h1, List.nil_append, h2]
  exact ⟨_, rfl⟩

/-- The identifier of key material with a master signing key carries no
fragment and no `#`. -/
theorem subject_no_fragment {mk : MailioKey} {did : DID} (hd : mk.DIDFromKey = some (did, none)) :
    did.Fragment = [] ∧ (35 : UInt8) ∉ did.String := by
  cases hk : mk.MasterSignKey with
  | none => simp [MailioKey.DIDFromKey, hk] at hd
  | some key =>
    rw [DIDFromKey_eq mk key hk] at hd
    simp only [Option.some.injEq, Prod.mk.injEq, and_true] at hd
    subst hd
    refine ⟨rfl, ?_⟩
    show (35 : UInt8) ∉ lit "did:mailio:" ++ (lit "0x" ++ lastChars 40 (hexDigest key))
    intro h
    rcases List.mem_append.mp h with h | h
    · revert h
      decide
    · exact address_no_hash key h

/-- C13: for every document returned by `NewMailioDIDDocument`, the
verification-method list is non-empty with `verificationMethod[0].ID =
document.ID.String() + "#master"`, and the authentication list is non-empty with
`authentication[0]` the string `document.ID.String() + "#master"`. -/
theorem Document_master_first (FromRaw : FromRawFn) (mk : MailioKey) (mailioPublicKey : Bytes)
    (auth msg : GoString) (doc : Document)
    (h : NewMailioDIDDocument FromRaw mk mailioPublicKey auth msg = some (some doc, none)) :
    doc.VerificationMethod ≠ [] ∧
      (∃ vm, doc.VerificationMethod[0]? = some vm ∧ vm.ID = doc.ID.String ++ lit "#master") ∧
      doc.Authentication ≠ [] ∧
      doc.Authentication[0]? = some (AuthEntry.str (doc.ID.String ++ lit "#master")) := by
  obtain ⟨key, did, mailioDid, vms0, vms, auths, hk, hd, h0, h1, h2, hid, hvm, hau, -, -⟩ :=
    NewMailioDIDDocument_inv h
  obtain ⟨rawKey, hf, hv0⟩ := masterVerificationMethod_done hk h0
  obtain ⟨ys, hys, -, -⟩ := verificationKeysLoop_done _ _ _ _ _ _ h1
  obtain ⟨zs, hzs, -, -⟩ := authenticationKeysLoop_done _ _ _ _ _ h2
  rw [hvm, hau, hid, hys, hzs, hv0]
  refine ⟨by simp, ?_, by simp, by simp⟩
  exact ⟨⟨did.String ++ lit "#master", PublicKeyJwkType, did.String, some { Key := some rawKey }⟩,
    by simp, rfl⟩

/-- Witness of C13: a master signing key, one auxiliary verification key and one
auxiliary authentication key. -/
theorem Document_master_first_witness :
    ∃ doc,
      NewMailioDIDDocument jwkFromRaw
        { MasterSignKey := some ⟨[1, 2, 3], KeyTypeEd25519⟩, MasterAgreementKey := none,
          VerificationKeys := [some ⟨[9], KeyTypeEd25519⟩],
          AuthenticationKeys := [some ⟨[8], KeyTypeEd25519⟩] } [4, 5] (lit "a") (lit "b")
        = some (some doc, none) ∧
      doc.VerificationMethod ≠ [] ∧
      (∃ vm, doc.VerificationMethod[0]? = some vm ∧ vm.ID = doc.ID.String ++ lit "#master") ∧
      doc.Authentication ≠ [] ∧
      doc.Authentication[0]? = some (AuthEntry.str (doc.ID.String ++ lit "#master")) := by
  obtain ⟨doc, hdoc⟩ := NewMailioDIDDocument_builds_all ⟨[1, 2, 3], KeyTypeEd25519⟩ none
    [⟨[9], KeyTypeEd25519⟩] [⟨[8], KeyTypeEd25519⟩] [4, 5] (lit "a") (lit "b")
  exact ⟨doc, hdoc, Document_master_first jwkFromRaw _ [4, 5] (lit "a") (lit "b") doc hdoc⟩


/-- C14: for every document returned by `NewMailioDIDDocument`, every
`VerificationMethod` in it (each entry of the verification-method list and each
inline entry of the authentication list) has `Controller` equal to the subject
identifier's `String()`. -/
theorem Document_controllers (FromRaw : FromRawFn) (mk : MailioKey) (mailioPublicKey : Bytes)
    (auth msg : GoString) (doc : Document)
    (h : NewMailioDIDDocument FromRaw mk mailioPublicKey auth msg = some (some doc, none)) :
    ∃ subject, mk.DIDFromKey = some (subject, none) ∧ doc.ID = subject ∧
      (∀ vm ∈ doc.VerificationMethod, vm.Controller = subject.String) ∧
      (∀ vm, AuthEntry.vm vm ∈ doc.Authentication → vm.Controller = subject.String) := by
  obtain ⟨key, did, mailioDid, vms0, vms, auths, hk, hd, h0, h1, h2, hid, hvm, hau, -, -⟩ :=
    NewMailioDIDDocument_inv h
  obtain ⟨rawKey, hf, hv0⟩ := masterVerificationMethod_done hk h0
  obtain ⟨ys, hys, hylen, hyall⟩ := verificationKeysLoop_done _ _ _ _ _ _ h1
  obtain ⟨zs, hzs, hzlen, hzall⟩ := authenticationKeysLoop_done _ _ _ _ _ h2
  refine ⟨did, hd, hid, ?_, ?_⟩
  · intro vm hmem
    rw [hvm, hys, hv0] at hmem
    rcases List.mem_append.mp hmem with h | h
    · rw [List.mem_singleton] at h
      rw [h]
    · obtain ⟨j, hj⟩ := List.mem_iff_getElem?.mp h
      have hlt : j < mk.VerificationKeys.length := by
        rw [← hylen]
        by_contra hcon
        rw [List.getElem?_eq_none (by omega)] at hj
        exact absurd hj (by simp)
      obtain ⟨_, rk, -, -, h3⟩ := hyall j hlt
      rw [hj, Option.some.injEq] at h3
      rw [h3]
  · intro vm hmem
    rw [hau, hzs] at hmem
    rcases List.mem_append.mp hmem with h | h
    · rw [List.mem_singleton] at h
      exact absurd h (by simp)
    · obtain ⟨j, hj⟩ := List.mem_iff_getElem?.mp h
      have hlt : j < mk.AuthenticationKeys.length := by
        rw [← hzlen]
        by_contra hcon
        rw [List.getElem?_eq_none (by omega)] at hj
        exact absurd hj (by simp)
      obtain ⟨_, rk, -, -, h3⟩ := hzall j hlt
      rw [hj, Option.some.injEq, AuthEntry.vm.injEq] at h3
      rw [h3]

/-- Witness of C14: a master signing key, one auxiliary verification key and one
auxiliary authentication key. -/
theorem Document_controllers_witness :
    ∃ doc subject,
      NewMailioDIDDocument jwkFromRaw
        { MasterSignKey := some ⟨[1, 2, 3], KeyTypeEd25519⟩, MasterAgreementKey := none,
          VerificationKeys := [some ⟨[9], KeyTypeEd25519⟩],
          AuthenticationKeys := [some ⟨[8], KeyTypeEd25519⟩] } [4, 5] (lit "a") (lit "b")
        = some (some doc, none) ∧
      doc.ID = subject ∧
      (∀ vm ∈ doc.VerificationMethod, vm.Controller = subject.String) ∧
      (∀ vm, AuthEntry.vm vm ∈ doc.Authentication → vm.Controller = subject.String) := by
  obtain ⟨doc, hdoc⟩ := NewMailioDIDDocument_builds_all ⟨[1, 2, 3], KeyTypeEd25519⟩ none
    [⟨[9], KeyTypeEd25519⟩] [⟨[8], KeyTypeEd25519⟩] [4, 5] (lit "a") (lit "b")
  obtain ⟨subject, -, h1, h2, h3⟩ :=
    Document_controllers jwkFromRaw _ [4, 5] (lit "a") (lit "b") doc hdoc
  exact ⟨doc, subject, hdoc, h1, h2, h3⟩


/-- The scan of `GetVerificationPublicKey` skips the entries that do not match. -/
theorem getVerificationLoop_skip (id : GoString) (pre rest : List VerificationMethod)
    (hpre : ∀ x ∈ pre, ¬ (id = x.ID ∨ id = lit "")) :
    getVerificationLoop id (pre ++ rest) = getVerificationLoop id rest := by
  induction pre with
  | nil => rfl
  | cons x t ih =>
    have hx := hpre x (List.mem_cons_self _ _)
    rw [List.cons_append, getVerificationLoop, if_neg hx]
    exact ih (fun y hy => hpre y (List.mem_cons_of_mem _ hy))

/-- The scan of `GetVerificationPublicKey` stops at the first entry that matches. -/
theorem getVerificationLoop_first (id : GoString) (pre post : List VerificationMethod)
    (vm : VerificationMethod) (hpre : ∀ x ∈ pre, ¬ (id = x.ID ∨ id = lit ""))
    (hvm : id = vm.ID ∨ id = lit "") :
    getVerificationLoop id (pre ++ vm :: post) = vm.GetPublicKey := by
  rw [getVerificationLoop_skip id pre _ hpre, getVerificationLoop, if_pos hvm]

/-- A list with a matching entry splits at its first matching entry. -/
theorem exists_first_match (p : VerificationMethod → Prop) (l : List VerificationMethod)
    (h : ∃ x ∈ l, p x) :
    ∃ pre vm post, l = pre ++ vm :: post ∧ (∀ y ∈ pre, ¬ p y) ∧ p vm := by
  induction l with
  | nil =>
    obtain ⟨x, hx, -⟩ := h
    exact absurd hx (by simp)
  | cons a t ih =>
    by_cases ha : p a
    · exact ⟨[], a, t, rfl, fun y hy => absurd hy (by simp), ha⟩
    · obtain ⟨x, hx, hpx⟩ := h
      have hxt : x ∈ t := by
        rcases List.mem_cons.mp hx with e | e
        · exact absurd (e ▸ hpx) ha
        · exact e
      obtain ⟨pre, vm, post, hl, hpre, hvm⟩ := ih ⟨x, hxt, hpx⟩
      refine ⟨a :: pre, vm, post, by rw [hl]; rfl, ?_, hvm⟩
      intro y hy
      rcases List.mem_cons.mp hy with e | e
      · rw [e]
        exact ha
      · exact hpre y e

/-- C15: for every document and every id, `GetVerificationPublicKey(id)` returns
the result of decoding the first verification method, in list order, whose ID
equals `id`, or the very first verification method when `id` is the empty
string, that entry's decode error included, later entries not being tried; and
it returns the not-found error exactly when the list has no such entry (the
list is empty, or `id` is not empty and no ID equals it), no decoding of an
entry returning the not-found error of this method. -/
theorem GetVerificationPublicKey_scan (d : Document) (id : GoString) :
    (id ≠ lit "" → ∀ pre vm post, d.VerificationMethod = pre ++ vm :: post →
      (∀ x ∈ pre, x.ID ≠ id) → vm.ID = id →
      d.GetVerificationPublicKey id = vm.GetPublicKey) ∧
    (id = lit "" → ∀ vm post, d.VerificationMethod = vm :: post →
      d.GetVerificationPublicKey id = vm.GetPublicKey) ∧
    ((d.VerificationMethod = [] ∨ (id ≠ lit "" ∧ ∀ x ∈ d.VerificationMethod, x.ID ≠ id)) →
      d.GetVerificationPublicKey id = some (none, some Error.noKeyFoundByThatID)) ∧
    ((∀ x ∈ d.VerificationMethod,
        x.GetPublicKey ≠ some (none, some Error.noKeyFoundByThatID)) →
      d.GetVerificationPublicKey id = some (none, some Error.noKeyFoundByThatID) →
      (d.VerificationMethod = [] ∨ (id ≠ lit "" ∧ ∀ x ∈ d.VerificationMethod, x.ID ≠ id))) := by
  have hnone : (∀ x ∈ d.VerificationMethod, ¬ (id = x.ID ∨ id = lit "")) →
      d.GetVerificationPublicKey id = some (none, some Error.noKeyFoundByThatID) := by
    intro hall
    have := getVerificationLoop_skip id d.VerificationMethod [] hall
    rw [List.append_nil] at this
    rw [Document.GetVerificationPublicKey, this]
    rfl
  refine ⟨?_, ?_, ?_, ?_⟩
  · intro he pre vm post hl hpre hvm
    rw [Document.GetVerificationPublicKey, hl]
    exact getVerificationLoop_first id pre post vm
      (fun x hx hor => hor.elim (fun e => hpre x hx e.symm) he) (Or.inl hvm.symm)
  · intro he vm post hl
    rw [Document.GetVerificationPublicKey, hl]
    exact getVerificationLoop_first id [] post vm (fun x hx => absurd hx (by simp)) (Or.inr he)
  · rintro (hl | ⟨he, hall⟩)
    · apply hnone
      rw [hl]
      intro x hx
      exact absurd hx (by simp)
    · exact hnone (fun x hx hor => hor.elim (fun e => hall x hx e.symm) he)
  · intro hdec hres
    by_contra hcon
    rw [not_or, not_and_or] at hcon
    obtain ⟨hl, hex⟩ := hcon
    have hmatch : ∃ x ∈ d.VerificationMethod, id = x.ID ∨ id = lit "" := by
      rcases hex with he | hall
      · obtain ⟨vm, post, hvp⟩ := List.exists_cons_of_ne_nil hl
        exact ⟨vm, by rw [hvp]; exact List.mem_cons_self _ _, Or.inr (not_not.mp he)⟩
      · rw [not_forall] at hall
        obtain ⟨x, hx⟩ := hall
        rw [Classical.not_imp] at hx
        exact ⟨x, hx.1, Or.inl (not_not.mp hx.2).symm⟩
    obtain ⟨pre, vm, post, hsplit, hpre, hvm⟩ := exists_first_match _ _ hmatch
    have hget := getVerificationLoop_first id pre post vm hpre hvm
    rw [← hsplit] at hget
    rw [Document.GetVerificationPublicKey, hget] at hres
    exact hdec vm (by rw [hsplit]; simp) hres

/-- Witness of C15: in a document with the entries `#1` (without a key) and `#2`,
the id `#1` resolves to the decoding of the first entry, an error. -/
theorem GetVerificationPublicKey_scan_witness :
    Document.GetVerificationPublicKey
      { Context := [], ID := DID.zero, AlsoKnownAs := [], Authentication := [],
        VerificationMethod := [⟨lit "#1", PublicKeyJwkType, [], none⟩,
          ⟨lit "#2", PublicKeyJwkType, [], some ⟨(jwkFromRaw [9]).1⟩⟩],
        KeyAgreement := [], Service := [] } (lit "#1")
      = VerificationMethod.GetPublicKey ⟨lit "#1", PublicKeyJwkType, [], none⟩ :=
  (GetVerificationPublicKey_scan _ (lit "#1")).1 (by decide) [] _ _ rfl
    (fun x hx => absurd hx (by simp)) rfl


theorem keyAgreementsOf_none (did : DID) (mk : MailioKey) (hk : mk.MasterAgreementKey = none) :
    keyAgreementsOf did mk = [] := by
  simp [keyAgreementsOf, hk]

/-- C18: for every document returned by `NewMailioDIDDocument`, the
key-agreement list has exactly one entry if the key material has a master
agreement key and is empty otherwise; the entry has ID equal to the subject
identifier's `String()` (which has no fragment), `Type`
`X25519KeyAgreementKey2019`, `Controller` equal to the subject identifier and
`PublicKeyMultibase` equal to the Base58 encoding of the agreement public key. -/
theorem KeyAgreement_shape (FromRaw : FromRawFn) (mk : MailioKey) (mailioPublicKey : Bytes)
    (auth msg : GoString) (doc : Document)
    (h : NewMailioDIDDocument FromRaw mk mailioPublicKey auth msg = some (some doc, none)) :
    ∃ subject, mk.DIDFromKey = some (subject, none) ∧ doc.ID = subject ∧
      subject.Fragment = [] ∧ (35 : UInt8) ∉ subject.String ∧
      (mk.MasterAgreementKey = none → doc.KeyAgreement = []) ∧
      (∀ mak, mk.MasterAgreementKey = some mak →
        doc.KeyAgreement =
          [{ ID := subject.String, Typ := lit "X25519KeyAgreementKey2019",
             Controller := subject.String, PublicKeyMultibase := base58Encode mak.PublicKey,
             PublicKeyJwk := none }]) := by
  obtain ⟨key, did, mailioDid, vms0, vms, auths, -, hd, -, -, -, hid, -, -, hka, -⟩ :=
    NewMailioDIDDocument_inv h
  obtain ⟨hfrag, hhash⟩ := subject_no_fragment hd
  refine ⟨did, hd, hid, hfrag, hhash, ?_, ?_⟩
  · intro hk
    rw [hka, keyAgreementsOf_none did mk hk]
  · intro mak hk
    rw [hka, keyAgreementsOf_some did mk mak hk]
    rfl

/-- Witness of C18: key material with the agreement key `0 5`. -/
theorem KeyAgreement_shape_witness :
    ∃ doc subject,
      NewMailioDIDDocument jwkFromRaw
        { MasterSignKey := some ⟨[1, 2, 3], KeyTypeEd25519⟩
          MasterAgreementKey := some ⟨[0, 5], KeyTypeX25519KeyAgreement⟩
          VerificationKeys := [], AuthenticationKeys := [] } [4, 5] (lit "a") (lit "b")
        = some (some doc, none) ∧
      doc.ID = subject ∧
      doc.KeyAgreement =
        [{ ID := subject.String, Typ := lit "X25519KeyAgreementKey2019",
           Controller := subject.String, PublicKeyMultibase := base58Encode [0, 5],
           PublicKeyJwk := none }] := by
  obtain ⟨doc, hdoc⟩ := NewMailioDIDDocument_builds ⟨[1, 2, 3], KeyTypeEd25519⟩
    (some ⟨[0, 5], KeyTypeX25519KeyAgreement⟩) [4, 5] (lit "a") (lit "b")
  obtain ⟨subject, -, h1, -, -, -, h2⟩ :=
    KeyAgreement_shape jwkFromRaw _ [4, 5] (lit "a") (lit "b") doc hdoc
  exact ⟨doc, subject, hdoc, h1, h2 _ rfl⟩

/-- C19: for every document returned by `NewMailioDIDDocument` from key material
with `m` auxiliary authentication keys, the authentication list has length
`1 + m`: the string reference `subject + "#master"` first, followed by one inline
`VerificationMethod` per auxiliary authentication key, in order, each with an
empty ID; with no auxiliary authentication key every authentication entry is a
string reference, and resolving it with `GetVerificationPublicKey` yields the
master signing public key (the key-object codec round-tripping). -/
theorem Authentication_shape (FromRaw : FromRawFn) (mk : MailioKey) (mailioPublicKey : Bytes)
    (auth msg : GoString) (doc : Document)
    (h : NewMailioDIDDocument FromRaw mk mailioPublicKey auth msg = some (some doc, none)) :
    ∃ subject, mk.DIDFromKey = some (subject, none) ∧
      doc.Authentication.length = 1 + mk.AuthenticationKeys.length ∧
      doc.Authentication[0]? = some (AuthEntry.str (subject.String ++ lit "#master")) ∧
      (∀ j, j < mk.AuthenticationKeys.length → ∃ key rawKey,
        mk.AuthenticationKeys[j]? = some (some key) ∧
        FromRaw key.PublicKey = (some rawKey, none) ∧
        doc.Authentication[j + 1]? = some (AuthEntry.vm
          { ID := [], Typ := PublicKeyJwkType, Controller := subject.String,
            PublicKeyJwk := some { Key := some rawKey } })) ∧
      (mk.AuthenticationKeys = [] →
        (∀ e ∈ doc.Authentication, ∃ s, e = AuthEntry.str s) ∧
        (CodecRoundTrips FromRaw → ∀ key, mk.MasterSignKey = some key →
          ∀ s, AuthEntry.str s ∈ doc.Authentication →
            doc.GetVerificationPublicKey s = some (some key.PublicKey, none))) := by
  obtain ⟨key, did, mailioDid, vms0, vms, auths, hk, hd, h0, h1, h2, hid, hvm, hau, -, -⟩ :=
    NewMailioDIDDocument_inv h
  obtain ⟨rawKey, hf, hv0⟩ := masterVerificationMethod_done hk h0
  obtain ⟨ys, hys, -, -⟩ := verificationKeysLoop_done _ _ _ _ _ _ h1
  obtain ⟨zs, hzs, hzlen, hzall⟩ := authenticationKeysLoop_done _ _ _ _ _ h2
  refine ⟨did, hd, ?_, ?_, ?_, ?_⟩
  · rw [hau, hzs, List.length_append, hzlen]
    rfl
  · rw [hau, hzs]
    simp
  · intro j hj
    obtain ⟨k, rk, hk1, hk2, hk3⟩ := hzall j hj
    refine ⟨k, rk, hk1, hk2, ?_⟩
    rw [hau, hzs]
    simpa using hk3
  · intro hnil
    have hz : zs = [] := by
      apply List.eq_nil_of_length_eq_zero
      rw [hzlen, hnil]
      rfl
    have hauths : doc.Authentication = [AuthEntry.str (did.String ++ lit "#master")] := by
      rw [hau, hzs, hz]
      rfl
    refine ⟨?_, ?_⟩
    · intro e he
      rw [hauths, List.mem_singleton] at he
      exact ⟨_, he⟩
    · intro hF key' hk' s hs
      rw [hauths, List.mem_singleton, AuthEntry.str.injEq] at hs
      have hkey : key' = key := by
        rw [hk] at hk'
        exact (Option.some.inj hk').symm
      obtain ⟨ht, hr⟩ := hF _ _ hf
      rw [hs, hkey, Document.GetVerificationPublicKey, hvm, hys, hv0]
      simp only [List.singleton_append, getVerificationLoop, true_or, if_true]
      exact GetPublicKey_of_roundtrip _ rawKey _ rfl ht hr

/-- Witness of C19: key material with two auxiliary authentication keys. -/
theorem Authentication_shape_witness :
    ∃ (doc : Document) (subject : DID),
      NewMailioDIDDocument jwkFromRaw
        { MasterSignKey := some ⟨[1, 2, 3], KeyTypeEd25519⟩, MasterAgreementKey := none,
          VerificationKeys := [],
          AuthenticationKeys := [some ⟨[8], KeyTypeEd25519⟩, some ⟨[7], KeyTypeEd25519⟩] }
        [4, 5] (lit "a") (lit "b") = some (some doc, none) ∧
      doc.Authentication.length = 1 + 2 ∧
      doc.Authentication[0]? = some (AuthEntry.str (subject.String ++ lit "#master")) := by
  obtain ⟨doc, hdoc⟩ := NewMailioDIDDocument_builds_all ⟨[1, 2, 3], KeyTypeEd25519⟩ none
    [] [⟨[8], KeyTypeEd25519⟩, ⟨[7], KeyTypeEd25519⟩] [4, 5] (lit "a") (lit "b")
  obtain ⟨subject, -, h1, h2, -⟩ :=
    Authentication_shape jwkFromRaw _ [4, 5] (lit "a") (lit "b") doc hdoc
  exact ⟨doc, subject, hdoc, h1, h2⟩

/-- C20: for every document returned by `NewMailioDIDDocument`, the service list
has exactly two entries in this order: an authentication service with ID
`operatorDID + "#auth"` and endpoint `AuthServiceEndpoint + "/" + subject.Value()`,
and a messaging service with ID `operatorDID + "#didcomm"`, endpoint
`MessageServiceEndpoint + "/" + subject.Value()` and `Accept` the two DIDComm
protocols, where `operatorDID` is the identifier derived from the operator
public key and `subject` the identifier derived from the key material. -/
theorem Service_shape (FromRaw : FromRawFn) (mk : MailioKey) (mailioPublicKey : Bytes)
    (auth msg : GoString) (doc : Document)
    (h : NewMailioDIDDocument FromRaw mk mailioPublicKey auth msg = some (some doc, none)) :
    ∃ subject operatorDID, mk.DIDFromKey = some (subject, none) ∧
      MailioKey.DIDFromKey
        { MasterSignKey := some { Typ := KeyTypeEd25519, PublicKey := mailioPublicKey }
          MasterAgreementKey := none
          VerificationKeys := []
          AuthenticationKeys := [] } = some (operatorDID, none) ∧
      doc.Service =
        [ { ID := operatorDID.String ++ lit "#auth"
            Typ := lit "MailioDIDAuth"
            ServiceEndpoint := auth ++ lit "/" ++ subject.Value
            Accept := []
            RoutingKeys := [] },
          { ID := operatorDID.String ++ lit "#didcomm"
            Typ := lit "DIDCommMessaging"
            ServiceEndpoint := msg ++ lit "/" ++ subject.Value
            Accept := [lit "didcomm/v2", lit "didcomm/aip2;env=rfc587"]
            RoutingKeys := [] } ] := by
  obtain ⟨key, did, mailioDid, vms0, vms, auths, -, hd, -, -, -, -, -, -, -, hsv, hm⟩ :=
    NewMailioDIDDocument_inv h
  exact ⟨did, mailioDid, hd, hm, hsv⟩

/-- Witness of C20: the endpoints `https://auth.mailio.com` and
`https://msg.mailio.com` of the tests. -/
theorem Service_shape_witness :
    ∃ (doc : Document) (subject operatorDID : DID),
      NewMailioDIDDocument jwkFromRaw
        { MasterSignKey := some ⟨[1, 2, 3], KeyTypeEd25519⟩, MasterAgreementKey := none,
          VerificationKeys := [], AuthenticationKeys := [] }
        [4, 5] (lit "https://auth.mailio.com") (lit "https://msg.mailio.com")
        = some (some doc, none) ∧
      doc.Service =
        [ { ID := operatorDID.String ++ lit "#auth"
            Typ := lit "MailioDIDAuth"
            ServiceEndpoint := lit "https://auth.mailio.com" ++ lit "/" ++ subject.Value
            Accept := []
            RoutingKeys := [] },
          { ID := operatorDID.String ++ lit "#didcomm"
            Typ := lit "DIDCommMessaging"
            ServiceEndpoint := lit "https://msg.mailio.com" ++ lit "/" ++ subject.Value
            Accept := [lit "didcomm/v2", lit "didcomm/aip2;env=rfc587"]
            RoutingKeys := [] } ] := by
  obtain ⟨doc, hdoc⟩ := NewMailioDIDDocument_builds ⟨[1, 2, 3], KeyTypeEd25519⟩ none [4, 5]
    (lit "https://auth.mailio.com") (lit "https://msg.mailio.com")
  obtain ⟨subject, operatorDID, -, -, h3⟩ := Service_shape jwkFromRaw _ [4, 5]
    (lit "https://auth.mailio.com") (lit "https://msg.mailio.com") doc hdoc
  exact ⟨doc, subject, operatorDID, hdoc, h3⟩

/-! ## The identifiers of the verification methods -/

/-- The numeral of a positive number is made of its decimal digits, most
significant first, each as its ASCII character. -/
theorem Itoa_eq_digits (n : Nat) (hn : 0 < n) :
    Itoa n = ((Nat.digits 10 n).reverse).map (fun d => UInt8.ofNat (48 + d)) := by
  unfold Itoa
  rw [if_neg (by omega), toBase_eq_digits 10 (by decide) n n (le_refl n)]

theorem digitChar_injective :
    ∀ a, a < 10 → ∀ b, b < 10 → UInt8.ofNat (48 + a) = UInt8.ofNat (48 + b) → a = b := by
  decide

theorem map_digitChar_injective (l1 : List Nat) :
    ∀ l2 : List Nat, (∀ d ∈ l1, d < 10) → (∀ d ∈ l2, d < 10) →
      l1.map (fun d => UInt8.ofNat (48 + d)) = l2.map (fun d => UInt8.ofNat (48 + d)) →
      l1 = l2 := by
  induction l1 with
  | nil =>
    intro l2 _ _ h
    cases l2 with
    | nil => rfl
    | cons b t => simp at h
  | cons a s ih =>
    intro l2 h1 h2 h
    cases l2 with
    | nil => simp at h
    | cons b t =>
      simp only [List.map_cons, List.cons.injEq] at h
      have hab := digitChar_injective a (h1 a (List.mem_cons_self _ _)) b
        (h2 b (List.mem_cons_self _ _)) h.1
      have hst := ih t (fun d hd => h1 d (List.mem_cons_of_mem _ hd))
        (fun d hd => h2 d (List.mem_cons_of_mem _ hd)) h.2
      rw [hab, hst]

/-- Distinct positive numbers have distinct numerals. -/
theorem Itoa_injective (n m : Nat) (hn : 0 < n) (hm : 0 < m) (h : Itoa n = Itoa m) : n = m := by
  rw [Itoa_eq_digits n hn, Itoa_eq_digits m hm] at h
  have hl := map_digitChar_injective _ _
    (fun d hd => Nat.digits_lt_base (by decide) (List.mem_reverse.mp hd))
    (fun d hd => Nat.digits_lt_base (by decide) (List.mem_reverse.mp hd)) h
  exact Nat.digits_inj_iff.mp (List.reverse_inj.mp hl)


/-- The verification-method list of a built document, entry by entry: the
master entry, then one entry per auxiliary verification key. -/
theorem VerificationMethod_entries {FromRaw : FromRawFn} {mk : MailioKey}
    {mailioPublicKey : Bytes} {auth msg : GoString} {doc : Document}
    (h : NewMailioDIDDocument FromRaw mk mailioPublicKey auth msg = some (some doc, none)) :
    ∃ subject masterKey masterRaw, mk.DIDFromKey = some (subject, none) ∧
      mk.MasterSignKey = some masterKey ∧
      FromRaw masterKey.PublicKey = (some masterRaw, none) ∧
      doc.VerificationMethod.length = 1 + mk.VerificationKeys.length ∧
      doc.VerificationMethod[0]? = some
        { ID := subject.String ++ lit "#master", Typ := PublicKeyJwkType,
          Controller := subject.String, PublicKeyJwk := some { Key := some masterRaw } } ∧
      ∀ i, i < mk.VerificationKeys.length → ∃ key rawKey,
        mk.VerificationKeys[i]? = some (some key) ∧
        FromRaw key.PublicKey = (some rawKey, none) ∧
        doc.VerificationMethod[i + 1]? = some
          { ID := lit "#" ++ Itoa (i + 1), Typ := PublicKeyJwkType,
            Controller := subject.String, PublicKeyJwk := some { Key := some rawKey } } := by
  obtain ⟨key, did, mailioDid, vms0, vms, auths, hk, hd, h0, h1, -, -, hvm, -⟩ :=
    NewMailioDIDDocument_inv h
  obtain ⟨rawKey, hf, hv0⟩ := masterVerificationMethod_done hk h0
  obtain ⟨ys, hys, hylen, hyall⟩ := verificationKeysLoop_done _ _ _ _ _ _ h1
  refine ⟨did, key, rawKey, hd, hk, hf, ?_, ?_, ?_⟩
  · rw [hvm, hys, hv0, List.length_append, hylen]
    rfl
  · rw [hvm, hys, hv0]
    simp
  · intro i hi
    obtain ⟨k, rk, hk1, hk2, hk3⟩ := hyall i hi
    refine ⟨k, rk, hk1, hk2, ?_⟩
    rw [Nat.zero_add] at hk3
    rw [hvm, hys, hv0]
    simpa using hk3

/-- C23: for every document returned by `NewMailioDIDDocument` from key material
with `n` auxiliary verification keys, the verification-method list has length
`1 + n`, and for every index `i < n` the entry at position `i + 1` carries the
key object of the `i`-th auxiliary key and has ID `#` followed by the decimal
representation of `i + 1`. -/
theorem VerificationMethod_numbering (FromRaw : FromRawFn) (mk : MailioKey)
    (mailioPublicKey : Bytes) (auth msg : GoString) (doc : Document)
    (h : NewMailioDIDDocument FromRaw mk mailioPublicKey auth msg = some (some doc, none)) :
    doc.VerificationMethod.length = 1 + mk.VerificationKeys.length ∧
      ∀ i, i < mk.VerificationKeys.length → ∃ key rawKey vm,
        mk.VerificationKeys[i]? = some (some key) ∧
        FromRaw key.PublicKey = (some rawKey, none) ∧
        doc.VerificationMethod[i + 1]? = some vm ∧
        vm.PublicKeyJwk = some { Key := some rawKey } ∧
        vm.ID = lit "#" ++ Itoa (i + 1) ∧
        Itoa (i + 1) = ((Nat.digits 10 (i + 1)).reverse).map (fun d => UInt8.ofNat (48 + d)) := by
  obtain ⟨subject, masterKey, masterRaw, -, -, -, hlen, -, hall⟩ := VerificationMethod_entries h
  refine ⟨hlen, fun i hi => ?_⟩
  obtain ⟨key, rawKey, h1, h2, h3⟩ := hall i hi
  exact ⟨key, rawKey, _, h1, h2, h3, rfl, rfl, Itoa_eq_digits (i + 1) (by omega)⟩

/-- Witness of C23: key material with two auxiliary verification keys. -/
theorem VerificationMethod_numbering_witness :
    ∃ (doc : Document),
      NewMailioDIDDocument jwkFromRaw
        { MasterSignKey := some ⟨[1, 2, 3], KeyTypeEd25519⟩, MasterAgreementKey := none,
          VerificationKeys := [some ⟨[9], KeyTypeEd25519⟩, some ⟨[10], KeyTypeEd25519⟩],
          AuthenticationKeys := [] } [4, 5] (lit "a") (lit "b") = some (some doc, none) ∧
      doc.VerificationMethod.length = 1 + 2 ∧
      ∃ key rawKey vm,
        [some (⟨[9], KeyTypeEd25519⟩ : Key), some ⟨[10], KeyTypeEd25519⟩][1]? = some (some key) ∧
        jwkFromRaw key.PublicKey = (some rawKey, none) ∧
        doc.VerificationMethod[1 + 1]? = some vm ∧
        vm.PublicKeyJwk = some { Key := some rawKey } ∧
        vm.ID = lit "#" ++ Itoa (1 + 1) ∧
        Itoa (1 + 1) = ((Nat.digits 10 (1 + 1)).reverse).map (fun d => UInt8.ofNat (48 + d)) := by
  obtain ⟨doc, hdoc⟩ := NewMailioDIDDocument_builds_all ⟨[1, 2, 3], KeyTypeEd25519⟩ none
    [⟨[9], KeyTypeEd25519⟩, ⟨[10], KeyTypeEd25519⟩] [] [4, 5] (lit "a") (lit "b")
  obtain ⟨hlen, hall⟩ :=
    VerificationMethod_numbering jwkFromRaw _ [4, 5] (lit "a") (lit "b") doc hdoc
  exact ⟨doc, hdoc, hlen, hall 1 (by decide)⟩


/-- The identifier of key material begins with `did:mailio:`. -/
theorem subject_String_eq {mk : MailioKey} {did : DID} (hd : mk.DIDFromKey = some (did, none)) :
    ∃ addr, did.String = lit "did:mailio:" ++ addr := by
  cases hk : mk.MasterSignKey with
  | none => simp [MailioKey.DIDFromKey, hk] at hd
  | some key =>
    rw [DIDFromKey_eq mk key hk] at hd
    simp only [Option.some.injEq, Prod.mk.injEq, and_true] at hd
    subst hd
    exact ⟨_, rfl⟩

/-- A string that begins with `did:mailio:` is not a string that begins with `#`. -/
theorem master_ne_fragment (addr rest numeral : GoString) :
    lit "did:mailio:" ++ addr ++ rest ≠ lit "#" ++ numeral := by
  intro h
  have h1 : (lit "did:mailio:" ++ addr ++ rest).head? = some 100 := rfl
  have h2 : (lit "#" ++ numeral).head? = some 35 := rfl
  rw [h, h2] at h1
  exact absurd h1 (by decide)

/-- In the verification-method list of a built document, two positions with the
same ID are the same position. -/
theorem VerificationMethod_ID_inj {FromRaw : FromRawFn} {mk : MailioKey}
    {mailioPublicKey : Bytes} {auth msg : GoString} {doc : Document}
    (h : NewMailioDIDDocument FromRaw mk mailioPublicKey auth msg = some (some doc, none)) :
    ∀ (i j : Nat) (vi vj : VerificationMethod), doc.VerificationMethod[i]? = some vi → doc.VerificationMethod[j]? = some vj →
      vi.ID = vj.ID → i = j := by
  obtain ⟨subject, masterKey, masterRaw, hd, -, -, hlen, hmaster, hall⟩ :=
    VerificationMethod_entries h
  obtain ⟨addr, haddr⟩ := subject_String_eq hd
  have hbound : ∀ k v, doc.VerificationMethod[k + 1]? = some v →
      k < mk.VerificationKeys.length := by
    intro k v hk
    have := (List.getElem?_eq_some.mp hk).1
    omega
  intro i j vi vj hi hj hid
  cases i with
  | zero =>
    cases j with
    | zero => rfl
    | succ j =>
      exfalso
      obtain ⟨_, _, -, -, hj'⟩ := hall j (hbound j vj hj)
      rw [hmaster, Option.some.injEq] at hi
      rw [hj', Option.some.injEq] at hj
      rw [← hi, ← hj] at hid
      simp only at hid
      rw [haddr] at hid
      exact master_ne_fragment _ _ _ hid
  | succ i =>
    cases j with
    | zero =>
      exfalso
      obtain ⟨_, _, -, -, hi'⟩ := hall i (hbound i vi hi)
      rw [hmaster, Option.some.injEq] at hj
      rw [hi', Option.some.injEq] at hi
      rw [← hi, ← hj] at hid
      simp only at hid
      rw [haddr] at hid
      exact master_ne_fragment _ _ _ hid.symm
    | succ j =>
      obtain ⟨_, _, -, -, hi'⟩ := hall i (hbound i vi hi)
      obtain ⟨_, _, -, -, hj'⟩ := hall j (hbound j vj hj)
      rw [hi', Option.some.injEq] at hi
      rw [hj', Option.some.injEq] at hj
      rw [← hi, ← hj] at hid
      simp only [List.append_cancel_left_eq] at hid
      rw [Itoa_injective (i + 1) (j + 1) (by omega) (by omega) hid]

/-- C22: for every document returned by `NewMailioDIDDocument`, the IDs of the
entries of the verification-method list are pairwise distinct, for any number of
auxiliary verification keys: the master entry's ID begins with `did:mailio:` and
ends with `#master`, the auxiliary IDs are `#` followed by distinct decimal
numerals, and none of them collides. -/
theorem VerificationMethod_ids_distinct (FromRaw : FromRawFn) (mk : MailioKey)
    (mailioPublicKey : Bytes) (auth msg : GoString) (doc : Document)
    (h : NewMailioDIDDocument FromRaw mk mailioPublicKey auth msg = some (some doc, none)) :
    (doc.VerificationMethod.map VerificationMethod.ID).Nodup ∧
    (∀ (i j : Nat) (vi vj : VerificationMethod), doc.VerificationMethod[i]? = some vi → doc.VerificationMethod[j]? = some vj →
      vi.ID = vj.ID → i = j) ∧
    (∃ vm addr, doc.VerificationMethod[0]? = some vm ∧
      vm.ID = lit "did:mailio:" ++ addr ++ lit "#master") ∧
    (∀ i, i < mk.VerificationKeys.length → ∃ vm, doc.VerificationMethod[i + 1]? = some vm ∧
      vm.ID = lit "#" ++ Itoa (i + 1)) ∧
    (∀ i j, Itoa (i + 1) = Itoa (j + 1) → i = j) := by
  have hinj := VerificationMethod_ID_inj h
  obtain ⟨subject, masterKey, masterRaw, hd, -, -, hlen, hmaster, hall⟩ :=
    VerificationMethod_entries h
  obtain ⟨addr, haddr⟩ := subject_String_eq hd
  refine ⟨?_, hinj, ⟨_, addr, hmaster, by rw [← haddr]⟩, ?_, ?_⟩
  · rw [List.nodup_iff_getElem?_ne_getElem?]
    intro i j hij hj heq
    rw [List.length_map] at hj
    rw [List.getElem?_map, List.getElem?_map, List.getElem?_eq_getElem (lt_trans hij hj),
      List.getElem?_eq_getElem hj] at heq
    simp only [Option.map_some', Option.some.injEq] at heq
    have := hinj i j _ _ (List.getElem?_eq_getElem (lt_trans hij hj))
      (List.getElem?_eq_getElem hj) heq
    omega
  · intro i hi
    obtain ⟨_, _, -, -, h3⟩ := hall i hi
    exact ⟨_, h3, rfl⟩
  · intro i j hij
    have := Itoa_injective (i + 1) (j + 1) (by omega) (by omega) hij
    omega

/-- Witness of C22: key material with two auxiliary verification keys. -/
theorem VerificationMethod_ids_distinct_witness :
    ∃ (doc : Document),
      NewMailioDIDDocument jwkFromRaw
        { MasterSignKey := some ⟨[1, 2, 3], KeyTypeEd25519⟩, MasterAgreementKey := none,
          VerificationKeys := [some ⟨[9], KeyTypeEd25519⟩, some ⟨[10], KeyTypeEd25519⟩],
          AuthenticationKeys := [] } [4, 5] (lit "a") (lit "b") = some (some doc, none) ∧
      (doc.VerificationMethod.map VerificationMethod.ID).Nodup := by
  obtain ⟨doc, hdoc⟩ := NewMailioDIDDocument_builds_all ⟨[1, 2, 3], KeyTypeEd25519⟩ none
    [⟨[9], KeyTypeEd25519⟩, ⟨[10], KeyTypeEd25519⟩] [] [4, 5] (lit "a") (lit "b")
  exact ⟨doc, hdoc,
    (VerificationMethod_ids_distinct jwkFromRaw _ [4, 5] (lit "a") (lit "b") doc hdoc).1⟩

/-! ## The outcomes of the document builder -/

/-- The outcome of the loop over the auxiliary verification keys when no entry
is `nil`: the error of the first encoding that fails, or the list. -/
theorem verificationKeysLoop_outcome (FromRaw : FromRawFn) (hF : EncoderReturnsKey FromRaw)
    (did : DID) (ks : List (Option Key)) (hall : ks.all Option.isSome = true) :
    ∀ (i : Nat) (acc : List VerificationMethod),
      (ks.any (encodingFails FromRaw) = true →
        ∃ e, verificationKeysLoop FromRaw did i ks acc = LoopResult.failed e) ∧
      (ks.any (encodingFails FromRaw) = false →
        ∃ xs, verificationKeysLoop FromRaw did i ks acc = LoopResult.done xs) := by
  induction ks with
  | nil =>
    intro i acc
    exact ⟨fun h => absurd h (by simp), fun _ => ⟨acc, rfl⟩⟩
  | cons k rest ih =>
    intro i acc
    cases k with
    | none => simp at hall
    | some vk =>
      have hrest : rest.all Option.isSome = true := by
        simp only [List.all_cons, Option.isSome_some, Bool.true_and] at hall
        exact hall
      rcases hf : FromRaw vk.PublicKey with ⟨_ | rawKey, _ | e⟩
      · have := hF vk.PublicKey (by rw [hf])
        rw [hf] at this
        exact absurd rfl this
      · simp [verificationKeysLoop, hf, encodingFails]
      · have hk : encodingFails FromRaw (some vk) = false := by
          simp [encodingFails, hf]
        simp only [List.any_cons, hk, Bool.false_or, verificationKeysLoop, hf]
        exact ih hrest _ _
      · simp [verificationKeysLoop, hf, encodingFails]

/-- The outcome of the loop over the auxiliary authentication keys when no entry
is `nil`: the error of the first encoding that fails, or the list. -/
theorem authenticationKeysLoop_outcome (FromRaw : FromRawFn) (hF : EncoderReturnsKey FromRaw)
    (did : DID) (ks : List (Option Key)) (hall : ks.all Option.isSome = true) :
    ∀ (acc : List AuthEntry),
      (ks.any (encodingFails FromRaw) = true →
        ∃ e, authenticationKeysLoop FromRaw did ks acc = LoopResult.failed e) ∧
      (ks.any (encodingFails FromRaw) = false →
        ∃ xs, authenticationKeysLoop FromRaw did ks acc = LoopResult.done xs) := by
  induction ks with
  | nil =>
    intro acc
    exact ⟨fun h => absurd h (by simp), fun _ => ⟨acc, rfl⟩⟩
  | cons k rest ih =>
    intro acc
    cases k with
    | none => simp at hall
    | some vk =>
      have hrest : rest.all Option.isSome = true := by
        simp only [List.all_cons, Option.isSome_some, Bool.true_and] at hall
        exact hall
      rcases hf : FromRaw vk.PublicKey with ⟨_ | rawKey, _ | e⟩
      · have := hF vk.PublicKey (by rw [hf])
        rw [hf] at this
        exact absurd rfl this
      · simp [authenticationKeysLoop, hf, encodingFails]
      · have hk : encodingFails FromRaw (some vk) = false := by
          simp [encodingFails, hf]
        simp only [List.any_cons, hk, Bool.false_or, authenticationKeysLoop, hf]
        exact ih hrest _
      · simp [authenticationKeysLoop, hf, encodingFails]

/-- The outcome of the master entry step for key material with a master key. -/
theorem masterVerificationMethod_outcome (FromRaw : FromRawFn) (hF : EncoderReturnsKey FromRaw)
    (did : DID) (mk : MailioKey) (key : Key) (hk : mk.MasterSignKey = some key) :
    (encodingFails FromRaw mk.MasterSignKey = true →
      ∃ e, masterVerificationMethod FromRaw did mk = LoopResult.failed e) ∧
    (encodingFails FromRaw mk.MasterSignKey = false →
      ∃ xs, masterVerificationMethod FromRaw did mk = LoopResult.done xs) := by
  rcases hf : FromRaw key.PublicKey with ⟨_ | rawKey, _ | e⟩
  · have := hF key.PublicKey (by rw [hf])
    rw [hf] at this
    exact absurd rfl this
  · simp [masterVerificationMethod, hk, hf, encodingFails]
  · simp [masterVerificationMethod, hk, hf, encodingFails]
  · simp [masterVerificationMethod, hk, hf, encodingFails]


/-- The return of `NewMailioDIDDocument` for key material without `nil` entries:
an error and no document when the master signing key is missing or an encoding
fails, a document and no error otherwise. -/
theorem NewMailioDIDDocument_outcome (FromRaw : FromRawFn) (hF : EncoderReturnsKey FromRaw)
    (mk : MailioKey) (hnil : noNilEntry mk = true) (mailioPublicKey : Bytes)
    (auth msg : GoString) :
    ((mk.MasterSignKey = none ∨ anyEncodingFails FromRaw mk = true) →
      ∃ e, NewMailioDIDDocument FromRaw mk mailioPublicKey auth msg = some (none, some e)) ∧
    (¬ (mk.MasterSignKey = none ∨ anyEncodingFails FromRaw mk = true) →
      ∃ doc, NewMailioDIDDocument FromRaw mk mailioPublicKey auth msg
        = some (some doc, none)) := by
  simp only [noNilEntry, Bool.and_eq_true] at hnil
  obtain ⟨hnv, hna⟩ := hnil
  cases hk : mk.MasterSignKey with
  | none =>
    have hd : mk.DIDFromKey = some (DID.zero, some Error.masterKeyRequired) := by
      simp [MailioKey.DIDFromKey, hk]
    refine ⟨fun _ => ⟨Error.masterKeyRequired, ?_⟩, fun h => absurd (Or.inl rfl) h⟩
    simp only [NewMailioDIDDocument, hd]
  | some key =>
    obtain ⟨did, hd⟩ : ∃ did, mk.DIDFromKey = some (did, none) := ⟨_, DIDFromKey_eq mk key hk⟩
    obtain ⟨mailioDid, hm⟩ := operator_DIDFromKey mailioPublicKey
    obtain ⟨hm1, hm2⟩ := masterVerificationMethod_outcome FromRaw hF did mk key hk
    have hany : anyEncodingFails FromRaw mk =
        (encodingFails FromRaw mk.MasterSignKey
          || mk.VerificationKeys.any (encodingFails FromRaw)
          || mk.AuthenticationKeys.any (encodingFails FromRaw)) := rfl
    cases hmf : encodingFails FromRaw mk.MasterSignKey with
    | true =>
      obtain ⟨e, he⟩ := hm1 hmf
      refine ⟨fun _ => ⟨e, ?_⟩, fun h => absurd (Or.inr ?_) h⟩
      · simp only [NewMailioDIDDocument, hd, hm, he]
      · rw [hany, hmf]
        rfl
    | false =>
      obtain ⟨vms0, h0⟩ := hm2 hmf
      obtain ⟨hv1, hv2⟩ := verificationKeysLoop_outcome FromRaw hF did mk.VerificationKeys hnv 0
        vms0
      cases hvf : mk.VerificationKeys.any (encodingFails FromRaw) with
      | true =>
        obtain ⟨e, he⟩ := hv1 hvf
        refine ⟨fun _ => ⟨e, ?_⟩, fun h => absurd (Or.inr ?_) h⟩
        · simp only [NewMailioDIDDocument, hd, hm, h0, he]
        · rw [hany, hmf, hvf]
          rfl
      | false =>
        obtain ⟨vms, h1⟩ := hv2 hvf
        obtain ⟨ha1, ha2⟩ := authenticationKeysLoop_outcome FromRaw hF did
          mk.AuthenticationKeys hna ([] ++ [AuthEntry.str (did.String ++ lit "#master")])
        cases haf : mk.AuthenticationKeys.any (encodingFails FromRaw) with
        | true =>
          obtain ⟨e, he⟩ := ha1 haf
          refine ⟨fun _ => ⟨e, ?_⟩, fun h => absurd (Or.inr ?_) h⟩
          · simp only [NewMailioDIDDocument, hd, hm, h0, h1, he]
          · rw [hany, hmf, hvf, haf]
            rfl
        | false =>
          obtain ⟨auths, h2⟩ := ha2 haf
          refine ⟨fun h => ?_, fun _ => ?_⟩
          · rcases h with h | h
            · exact absurd h (by simp)
            · rw [hany, hmf, hvf, haf] at h
              exact absurd h (by decide)
          · simp only [NewMailioDIDDocument, hd, hm, h0, h1, h2]
            exact ⟨_, rfl⟩


theorem jwkFromRawStrict_returnsKey : EncoderReturnsKey jwkFromRawStrict := by
  intro b h
  by_cases hb : b = []
  · simp [jwkFromRawStrict, hb] at h
  · simp [jwkFromRawStrict, hb, jwkFromRaw]

/-- C21 as stated fails: with a master signing key, no failing encoding and a
`nil` entry in the list of auxiliary verification keys, `NewMailioDIDDocument`
returns neither a document nor an error (the dereference of the entry panics);
and with the `nil` entry before an auxiliary authentication key whose encoding
fails, it returns no error either. -/
theorem NewMailioDIDDocument_nil_entry :
    (MailioKey.MasterSignKey
        { MasterSignKey := some ⟨[1, 2, 3], KeyTypeEd25519⟩, MasterAgreementKey := none,
          VerificationKeys := [none], AuthenticationKeys := [] } ≠ none ∧
      anyEncodingFails jwkFromRaw
        { MasterSignKey := some ⟨[1, 2, 3], KeyTypeEd25519⟩, MasterAgreementKey := none,
          VerificationKeys := [none], AuthenticationKeys := [] } = false ∧
      NewMailioDIDDocument jwkFromRaw
        { MasterSignKey := some ⟨[1, 2, 3], KeyTypeEd25519⟩, MasterAgreementKey := none,
          VerificationKeys := [none], AuthenticationKeys := [] } [4, 5] (lit "a") (lit "b")
        = none) ∧
    (anyEncodingFails jwkFromRawStrict
        { MasterSignKey := some ⟨[1, 2, 3], KeyTypeEd25519⟩, MasterAgreementKey := none,
          VerificationKeys := [none], AuthenticationKeys := [some ⟨[], KeyTypeEd25519⟩] } = true ∧
      NewMailioDIDDocument jwkFromRawStrict
        { MasterSignKey := some ⟨[1, 2, 3], KeyTypeEd25519⟩, MasterAgreementKey := none,
          VerificationKeys := [none], AuthenticationKeys := [some ⟨[], KeyTypeEd25519⟩] }
        [4, 5] (lit "a") (lit "b") = none) := by
  decide!

/-- C21, amended: for key material whose lists of auxiliary keys hold no `nil`
entry (the key-object encoder returning a key whenever it returns no error),
`NewMailioDIDDocument` returns either a document or an error, never both and
never neither: an error and no document whenever the key material has no master
signing key or the key-object encoding of the master signing key, of an
auxiliary verification key or of an auxiliary authentication key fails, and a
document with no error in every other case. -/
theorem NewMailioDIDDocument_document_or_error (FromRaw : FromRawFn)
    (hF : EncoderReturnsKey FromRaw) (mk : MailioKey) (hnil : noNilEntry mk = true)
    (mailioPublicKey : Bytes) (auth msg : GoString) :
    ((mk.MasterSignKey = none ∨ anyEncodingFails FromRaw mk = true) →
      ∃ e, NewMailioDIDDocument FromRaw mk mailioPublicKey auth msg = some (none, some e)) ∧
    (¬ (mk.MasterSignKey = none ∨ anyEncodingFails FromRaw mk = true) →
      ∃ doc, NewMailioDIDDocument FromRaw mk mailioPublicKey auth msg
        = some (some doc, none)) ∧
    (∃ d e, NewMailioDIDDocument FromRaw mk mailioPublicKey auth msg = some (d, e) ∧
      (d = none ↔ e ≠ none)) := by
  obtain ⟨h1, h2⟩ := NewMailioDIDDocument_outcome FromRaw hF mk hnil mailioPublicKey auth msg
  refine ⟨h1, h2, ?_⟩
  by_cases hc : mk.MasterSignKey = none ∨ anyEncodingFails FromRaw mk = true
  · obtain ⟨e, he⟩ := h1 hc
    exact ⟨none, some e, he, by simp⟩
  · obtain ⟨doc, hdoc⟩ := h2 hc
    exact ⟨some doc, none, hdoc, by simp⟩

/-- Witness of the amended C21: the encoding of the auxiliary verification key
with no bytes fails under `jwkFromRawStrict`, and an error is returned. -/
theorem NewMailioDIDDocument_document_or_error_witness :
    ∃ e, NewMailioDIDDocument jwkFromRawStrict
      { MasterSignKey := some ⟨[1, 2, 3], KeyTypeEd25519⟩, MasterAgreementKey := none,
        VerificationKeys := [some ⟨[9], KeyTypeEd25519⟩, some ⟨[], KeyTypeEd25519⟩],
        AuthenticationKeys := [some ⟨[8], KeyTypeEd25519⟩] } [4, 5] (lit "a") (lit "b")
      = some (none, some e) :=
  (NewMailioDIDDocument_document_or_error jwkFromRawStrict jwkFromRawStrict_returnsKey
    { MasterSignKey := some ⟨[1, 2, 3], KeyTypeEd25519⟩, MasterAgreementKey := none,
      VerificationKeys := [some ⟨[9], KeyTypeEd25519⟩, some ⟨[], KeyTypeEd25519⟩],
      AuthenticationKeys := [some ⟨[8], KeyTypeEd25519⟩] } (by decide) [4, 5] (lit "a")
    (lit "b")).1 (Or.inr (by decide))

end Did
